import Mathlib

/-!
# Verification of the browser library application (`app.js`)

A shallow embedding of the catalog application in `src/app.js`: JavaScript
runtime values are modelled by `JsVal`, JS numbers (IEEE doubles with the
NaN / Infinity sentinels) by `JsNum` over exact rationals, and fallible JS
code (code that can throw a `TypeError`) returns `Option`.  The definitions
mirror the source functions (`scanBooks`, `importBooksJson`,
`exportBooksJson`, `loadBooks`, `loadConfig`, `applyFiltersAndRender`,
`rebuildFacets`, the event handlers of `bindEvents`, `openPdf`, `boot`),
and the theorems at the end settle the specification claims against them.
-/

set_option autoImplicit false

namespace LibraryApp

/-- A JavaScript number: a finite value (modelled exactly as a rational —
division by the powers of two used in this program is exact in binary
floating point, so the rational model agrees with the double semantics on
every computation the program performs), or one of the sentinels
`NaN`, `Infinity`, `-Infinity`. -/
inductive JsNum where
  | fin (q : ℚ)
  | nan
  | inf
  | ninf
  deriving DecidableEq, Repr

/-- A JavaScript runtime value, as far as this program manipulates them:
`undefined`, `null`, booleans, numbers, strings, arrays and plain objects
(an object is its ordered own-property list; all objects built by this
program have pairwise distinct keys). -/
inductive JsVal where
  | undef
  | jnull
  | bool (b : Bool)
  | num (n : JsNum)
  | str (s : String)
  | arr (elems : List JsVal)
  | obj (fields : List (String × JsVal))
  deriving Repr

mutual

/-- Structural (decidable) equality of `JsVal`, used only to state theorems
and evaluate witnesses (it is not a JS operator). -/
def JsVal.beq : JsVal → JsVal → Bool
  | .undef, .undef => true
  | .jnull, .jnull => true
  | .bool a, .bool b => a == b
  | .num a, .num b => a == b
  | .str a, .str b => a == b
  | .arr a, .arr b => JsVal.beqList a b
  | .obj a, .obj b => JsVal.beqFields a b
  | _, _ => false

def JsVal.beqList : List JsVal → List JsVal → Bool
  | [], [] => true
  | a :: as, b :: bs => JsVal.beq a b && JsVal.beqList as bs
  | _, _ => false

def JsVal.beqFields : List (String × JsVal) → List (String × JsVal) → Bool
  | [], [] => true
  | (k, a) :: as, (l, b) :: bs => k == l && JsVal.beq a b && JsVal.beqFields as bs
  | _, _ => false

end

instance : BEq JsVal := ⟨JsVal.beq⟩

mutual

def JsVal.beq_refl : ∀ (v : JsVal), JsVal.beq v v = true
  | .undef => rfl
  | .jnull => rfl
  | .bool b => by simp [JsVal.beq]
  | .num n => by simp [JsVal.beq]
  | .str s => by simp [JsVal.beq]
  | .arr xs => by simp [JsVal.beq, JsVal.beqList_refl xs]
  | .obj fs => by simp [JsVal.beq, JsVal.beqFields_refl fs]

def JsVal.beqList_refl : ∀ (xs : List JsVal), JsVal.beqList xs xs = true
  | [] => rfl
  | x :: xs => by simp [JsVal.beqList, JsVal.beq_refl x, JsVal.beqList_refl xs]

def JsVal.beqFields_refl : ∀ (fs : List (String × JsVal)), JsVal.beqFields fs fs = true
  | [] => rfl
  | (k, v) :: fs => by
      simp [JsVal.beqFields, JsVal.beq_refl v, JsVal.beqFields_refl fs]

end

mutual

def JsVal.eq_of_beq : ∀ {a b : JsVal}, JsVal.beq a b = true → a = b
  | .undef, .undef, _ => rfl
  | .jnull, .jnull, _ => rfl
  | .bool _, .bool _, h => by simpa [JsVal.beq] using h
  | .num _, .num _, h => by simpa [JsVal.beq] using h
  | .str _, .str _, h => by simpa [JsVal.beq] using h
  | .arr as, .arr bs, h => by
      simp only [JsVal.beq] at h
      exact congrArg JsVal.arr (JsVal.eqList_of_beq h)
  | .obj as, .obj bs, h => by
      simp only [JsVal.beq] at h
      exact congrArg JsVal.obj (JsVal.eqFields_of_beq h)
  | .undef, .jnull, h => by simp [JsVal.beq] at h
  | .undef, .bool _, h => by simp [JsVal.beq] at h
  | .undef, .num _, h => by simp [JsVal.beq] at h
  | .undef, .str _, h => by simp [JsVal.beq] at h
  | .undef, .arr _, h => by simp [JsVal.beq] at h
  | .undef, .obj _, h => by simp [JsVal.beq] at h
  | .jnull, .undef, h => by simp [JsVal.beq] at h
  | .jnull, .bool _, h => by simp [JsVal.beq] at h
  | .jnull, .num _, h => by simp [JsVal.beq] at h
  | .jnull, .str _, h => by simp [JsVal.beq] at h
  | .jnull, .arr _, h => by simp [JsVal.beq] at h
  | .jnull, .obj _, h => by simp [JsVal.beq] at h
  | .bool _, .undef, h => by simp [JsVal.beq] at h
  | .bool _, .jnull, h => by simp [JsVal.beq] at h
  | .bool _, .num _, h => by simp [JsVal.beq] at h
  | .bool _, .str _, h => by simp [JsVal.beq] at h
  | .bool _, .arr _, h => by simp [JsVal.beq] at h
  | .bool _, .obj _, h => by simp [JsVal.beq] at h
  | .num _, .undef, h => by simp [JsVal.beq] at h
  | .num _, .jnull, h => by simp [JsVal.beq] at h
  | .num _, .bool _, h => by simp [JsVal.beq] at h
  | .num _, .str _, h => by simp [JsVal.beq] at h
  | .num _, .arr _, h => by simp [JsVal.beq] at h
  | .num _, .obj _, h => by simp [JsVal.beq] at h
  | .str _, .undef, h => by simp [JsVal.beq] at h
  | .str _, .jnull, h => by simp [JsVal.beq] at h
  | .str _, .bool _, h => by simp [JsVal.beq] at h
  | .str _, .num _, h => by simp [JsVal.beq] at h
  | .str _, .arr _, h => by simp [JsVal.beq] at h
  | .str _, .obj _, h => by simp [JsVal.beq] at h
  | .arr _, .undef, h => by simp [JsVal.beq] at h
  | .arr _, .jnull, h => by simp [JsVal.beq] at h
  | .arr _, .bool _, h => by simp [JsVal.beq] at h
  | .arr _, .num _, h => by simp [JsVal.beq] at h
  | .arr _, .str _, h => by simp [JsVal.beq] at h
  | .arr _, .obj _, h => by simp [JsVal.beq] at h
  | .obj _, .undef, h => by simp [JsVal.beq] at h
  | .obj _, .jnull, h => by simp [JsVal.beq] at h
  | .obj _, .bool _, h => by simp [JsVal.beq] at h
  | .obj _, .num _, h => by simp [JsVal.beq] at h
  | .obj _, .str _, h => by simp [JsVal.beq] at h
  | .obj _, .arr _, h => by simp [JsVal.beq] at h

def JsVal.eqList_of_beq : ∀ {as bs : List JsVal}, JsVal.beqList as bs = true → as = bs
  | [], [], _ => rfl
  | a :: as, b :: bs, h => by
      simp only [JsVal.beqList, Bool.and_eq_true] at h
      rw [JsVal.eq_of_beq h.1, JsVal.eqList_of_beq h.2]
  | [], _ :: _, h => by simp [JsVal.beqList] at h
  | _ :: _, [], h => by simp [JsVal.beqList] at h

def JsVal.eqFields_of_beq :
    ∀ {as bs : List (String × JsVal)}, JsVal.beqFields as bs = true → as = bs
  | [], [], _ => rfl
  | (k, a) :: as, (l, b) :: bs, h => by
      simp only [JsVal.beqFields, Bool.and_eq_true] at h
      obtain ⟨⟨hk, ha⟩, hs⟩ := h
      have hk' : k = l := by simpa using hk
      rw [hk', JsVal.eq_of_beq ha, JsVal.eqFields_of_beq hs]
  | [], _ :: _, h => by simp [JsVal.beqFields] at h
  | _ :: _, [], h => by simp [JsVal.beqFields] at h

end

instance : DecidableEq JsVal := fun a b =>
  if h : JsVal.beq a b = true then
    .isTrue (JsVal.eq_of_beq h)
  else
    .isFalse (fun he => h (he ▸ JsVal.beq_refl a))

/-! ## JavaScript semantics helpers -/

/-- JS truthiness: `undefined`, `null`, `false`, `0`, `NaN` and `""` are
falsy; every other value (including empty arrays and objects) is truthy. -/
def truthy : JsVal → Bool
  | .undef => false
  | .jnull => false
  | .bool b => b
  | .num (.fin q) => q != 0
  | .num .nan => false
  | .num .inf => true
  | .num .ninf => true
  | .str s => s != ""
  | .arr _ => true
  | .obj _ => true

/-- The JS expression `a || b`: `b` when `a` is falsy, otherwise `a`. -/
def orJs (a b : JsVal) : JsVal := if truthy a then a else b

/-- Own-property lookup on an object; `undefined` for a missing key or a
non-object receiver.  Used where the source reads a property of a value
already known not to be `null`/`undefined`. -/
def getF (v : JsVal) (k : String) : JsVal :=
  match v with
  | .obj fs =>
      match fs.find? (fun p => p.1 == k) with
      | some p => p.2
      | none => .undef
  | _ => JsVal.undef

/-- Property access `v[k]` as an operation that can throw: reading a
property of `undefined` or `null` is a `TypeError` (`none`).  Arrays and
strings expose their `length`; other primitives yield `undefined` for the
property names this program reads. -/
def getFieldE : JsVal → String → Option JsVal
  | .undef, _ => none
  | .jnull, _ => none
  | .obj fs, k => some (getF (.obj fs) k)
  | .arr xs, k => some (if k == "length" then .num (.fin (xs.length : ℚ)) else .undef)
  | .str s, k => some (if k == "length" then .num (.fin (s.length : ℚ)) else .undef)
  | _, _ => some JsVal.undef

/-- JS strict equality `===` on the values this program compares.  `NaN` is
not equal to itself.  Objects and arrays compare by reference identity;
distinct structural values are never identical, and the program never
compares an object with itself, so the model returns `false` for them. -/
def jsStrictEq : JsVal → JsVal → Bool
  | .undef, .undef => true
  | .jnull, .jnull => true
  | .bool a, .bool b => a == b
  | .num (.fin a), .num (.fin b) => a == b
  | .num .inf, .num .inf => true
  | .num .ninf, .num .ninf => true
  | .str a, .str b => a == b
  | _, _ => false

/-- Rendering a JS number as a string.  Exact for the sentinels and for
integers; the decimal rendering of non-integral doubles is approximated by
a fraction notation (the program only ever stringifies integers and
strings on the paths the claims exercise). -/
def jsNumToStr : JsNum → String
  | .nan => "NaN"
  | .inf => "Infinity"
  | .ninf => "-Infinity"
  | .fin q => if q.den = 1 then toString q.num else toString q.num ++ "/" ++ toString q.den

mutual

/-- The JS `ToString` conversion (as applied by `String(x)` and by string
concatenation).  Arrays stringify as their elements joined with commas,
with `null`/`undefined` elements rendered empty; plain objects stringify
as `"[object Object]"`. -/
def jsToStr : JsVal → String
  | .undef => "undefined"
  | .jnull => "null"
  | .bool true => "true"
  | .bool false => "false"
  | .num n => jsNumToStr n
  | .str s => s
  | .arr xs => jsToStrJoin xs
  | .obj _ => "[object Object]"

def jsToStrJoin : List JsVal → String
  | [] => ""
  | [x] => jsToStrElem x
  | x :: y :: xs => jsToStrElem x ++ "," ++ jsToStrJoin (y :: xs)

def jsToStrElem : JsVal → String
  | .undef => ""
  | .jnull => ""
  | .bool b => jsToStr (.bool b)
  | .num n => jsNumToStr n
  | .str s => s
  | .arr xs => jsToStrJoin xs
  | .obj fs => jsToStr (.obj fs)

end

/-- Does the character list `n` occur at the start of `h`? -/
def startsWithL : List Char → List Char → Bool
  | _, [] => true
  | [], _ :: _ => false
  | c :: h, d :: n => c == d && startsWithL h n

/-- Does the character list `n` occur anywhere in `h`? (JS
`String.prototype.includes`.) -/
def containsL (n : List Char) : List Char → Bool
  | [] => startsWithL [] n
  | c :: h => startsWithL (c :: h) n || containsL n h

/-- JS `hay.includes(needle)`: substring containment. -/
def strIncludes (hay needle : String) : Bool := containsL needle.toList hay.toList

/-- Numeric value of a list of decimal digits. -/
def digitsVal (ds : List Char) : ℕ :=
  ds.foldl (fun acc c => acc * 10 + (c.toNat - '0'.toNat)) 0

/-- `parseInt(s, 10)`: skip leading whitespace, optional sign, then the
longest run of decimal digits; `none` models the `NaN` result when no
digit is found. -/
def jsParseInt (s : String) : Option ℚ :=
  let cs := s.toList.dropWhile Char.isWhitespace
  let (neg, cs1) : Bool × List Char :=
    match cs with
    | '-' :: t => (true, t)
    | '+' :: t => (false, t)
    | _ => (false, cs)
  let ds := cs1.takeWhile Char.isDigit
  if ds.isEmpty then none
  else some (if neg then -(digitsVal ds : ℚ) else (digitsVal ds : ℚ))

/-- Apply a decimal exponent to an exact mantissa. -/
def applyExp (m : ℚ) (e : ℤ) : ℚ :=
  if 0 ≤ e then m * (10 : ℚ) ^ e.toNat else m / (10 : ℚ) ^ (-e).toNat

/-- Parse a JS numeric literal (sign, `Infinity`, decimal mantissa with
optional fraction and exponent) at the front of a character list,
returning the value and the unconsumed rest.  `none` when no number
starts there. -/
def parseNumCore (cs : List Char) : Option (JsNum × List Char) :=
  let (neg, cs1) : Bool × List Char :=
    match cs with
    | '-' :: t => (true, t)
    | '+' :: t => (false, t)
    | _ => (false, cs)
  if startsWithL cs1 "Infinity".toList then
    some (if neg then .ninf else .inf, cs1.drop 8)
  else
    let ip := cs1.takeWhile Char.isDigit
    let r1 := cs1.drop ip.length
    let (fp, r2) : List Char × List Char :=
      match r1 with
      | '.' :: t => (t.takeWhile Char.isDigit, t.drop (t.takeWhile Char.isDigit).length)
      | _ => ([], r1)
    if ip.isEmpty && fp.isEmpty then none
    else
      let mant : ℚ :=
        if fp.isEmpty then (digitsVal ip : ℚ)
        else (digitsVal ip : ℚ) + (digitsVal fp : ℚ) / (10 : ℚ) ^ fp.length
      let (ex, r3) : ℤ × List Char :=
        match r2 with
        | c :: t =>
          if c == 'e' || c == 'E' then
            let (eneg, t1) : Bool × List Char :=
              match t with
              | '-' :: u => (true, u)
              | '+' :: u => (false, u)
              | _ => (false, t)
            let eds := t1.takeWhile Char.isDigit
            if eds.isEmpty then (0, r2)
            else
              (if eneg then -(digitsVal eds : ℤ) else (digitsVal eds : ℤ), t1.drop eds.length)
          else (0, r2)
        | [] => (0, r2)
      let value : ℚ := if ex = 0 then mant else applyExp mant ex
      some (.fin (if neg then -value else value), r3)

/-- `parseFloat(s)`: skip leading whitespace, parse the longest numeric
literal at the front, `NaN` when there is none.  (Hexadecimal forms are
not part of `parseFloat`.) -/
def jsParseFloat (s : String) : JsNum :=
  match parseNumCore (s.toList.dropWhile Char.isWhitespace) with
  | none => .nan
  | some (n, _) => n

/-- `ToNumber` on a string: a trimmed empty string is `0`; otherwise the
whole (trimmed) string must be a numeric literal, else `NaN`.
(Hex/octal/binary literal forms are not modelled; the program never
converts such strings.) -/
def strToNumber (s : String) : JsNum :=
  let cs := s.toList.dropWhile Char.isWhitespace
  let cs1 := (cs.reverse.dropWhile Char.isWhitespace).reverse
  if cs1.isEmpty then .fin 0
  else
    match parseNumCore cs1 with
    | some (n, []) => n
    | _ => .nan

/-- The JS `ToNumber` conversion, as applied by arithmetic and relational
operators. -/
def jsToNum : JsVal → JsNum
  | .undef => .nan
  | .jnull => .fin 0
  | .bool b => .fin (if b then 1 else 0)
  | .num n => n
  | .str s => strToNumber s
  | .arr xs => strToNumber (jsToStr (.arr xs))
  | .obj _ => .nan

/-- Subtraction on JS numbers (`a - b` after `ToNumber`). -/
def jsNumSub : JsNum → JsNum → JsNum
  | .nan, _ => .nan
  | _, .nan => .nan
  | .inf, .inf => .nan
  | .inf, _ => .inf
  | .ninf, .ninf => .nan
  | .ninf, _ => .ninf
  | .fin _, .inf => .ninf
  | .fin _, .ninf => .inf
  | .fin a, .fin b => .fin (a - b)

/-- The JS comparison `a <= b` on numbers: `false` whenever `NaN` is
involved. -/
def jsNumLe : JsNum → JsNum → Bool
  | .nan, _ => false
  | _, .nan => false
  | .ninf, _ => true
  | _, .inf => true
  | .inf, _ => false
  | _, .ninf => false
  | .fin a, .fin b => decide (a ≤ b)

/-- Is the number finite (`Number.isFinite` on a value already known to be
a number)? -/
def JsNum.isFinite : JsNum → Bool
  | .fin _ => true
  | _ => false

/-- `Number.isFinite(v)` on an arbitrary value: no coercion — `false` for
every non-number. -/
def jsIsFiniteVal : JsVal → Bool
  | .num n => n.isFinite
  | _ => false

/-! ## String primitives

Character-list implementations of the string operations the program uses
(`split`, `trim`, `toLowerCase`, suffix test), so that every definition
evaluates inside the kernel. -/

/-- ASCII lower-casing of one character.  (JS `toLowerCase` is
Unicode-aware; the program's data and the claims only exercise ASCII.) -/
def charToLower (c : Char) : Char :=
  if 'A' ≤ c && c ≤ 'Z' then Char.ofNat (c.toNat + 32) else c

/-- `s.toLowerCase()`. -/
def strToLower (s : String) : String := String.mk (s.data.map charToLower)

/-- `s.trim()`: strip leading and trailing whitespace. -/
def trimS (s : String) : String :=
  String.mk (((s.data.dropWhile Char.isWhitespace).reverse.dropWhile Char.isWhitespace).reverse)

/-- Helper of `splitOnChar`: the accumulator holds the current segment
reversed. -/
def splitOnCharAux (sep : Char) : List Char → List Char → List String
  | [], acc => [String.mk acc.reverse]
  | c :: cs, acc =>
      if c == sep then String.mk acc.reverse :: splitOnCharAux sep cs []
      else splitOnCharAux sep cs (c :: acc)

/-- `s.split(sep)` for a single-character separator. -/
def splitOnChar (sep : Char) (s : String) : List String :=
  splitOnCharAux sep s.data []

/-- The characters after the last `/` of a string — exactly
`s.split('/').pop()`. -/
def lastSegAux : List Char → List Char → List Char
  | [], acc => acc.reverse
  | c :: cs, acc => if c == '/' then lastSegAux cs [] else lastSegAux cs (c :: acc)

/-- `s.split('/').pop()` on a string. -/
def lastSegment (s : String) : String := String.mk (lastSegAux s.data [])

/-- Does `s` end with `suffix`? -/
def strEndsWith (s suffix : String) : Bool :=
  startsWithL s.data.reverse suffix.data.reverse

/-! ## Utilities of `app.js` -/

/-- `function filenameFromPath(p) { return p.split('/').pop(); }` — only
strings have a `split` method, so any other argument (in particular the
`undefined` produced by a manifest record with no `path`) throws a
`TypeError` (`none`). -/
def filenameFromPath : JsVal → Option String
  | .str s => some (lastSegment s)
  | _ => none

/-! ## Manifest normalization (`scanBooks` / `importBooksJson` map body)

`uniqueId()` and `Date.now()` are external effects; they enter the model
as parameters (`freshId` per record, `now` for the load). -/

/-- The record normalization both `scanBooks` and `importBooksJson` apply
to one manifest entry, differing only in the default `metadataSource`.
Fails (`none`) when the JS object literal would throw — property access on
a `null`/`undefined` entry, or `filenameFromPath` on a non-string
`path`. -/
def normalizeItem (defaultSource freshId : String) (now : ℚ) (item : JsVal) :
    Option JsVal := do
  let id ← getFieldE item "id"
  let title ← getFieldE item "title"
  let author ← getFieldE item "author"
  let fieldv ← getFieldE item "field"
  let tags ← getFieldE item "tags"
  let descr ← getFieldE item "description"
  let path ← getFieldE item "path"
  let fname ← filenameFromPath path
  let size ← getFieldE item "sizeBytes"
  let added ← getFieldE item "addedAt"
  let msrc ← getFieldE item "metadataSource"
  pure (.obj
    [ ("id", orJs id (.str freshId)),
      ("title", orJs title (.str "")),
      ("author", orJs author (.str "")),
      ("field", orJs fieldv (.str "")),
      ("tags", orJs tags (.arr [])),
      ("description", orJs descr (.str "")),
      ("path", path),
      ("filename", .str fname),
      ("sizeBytes", match size with | .num n => .num n | _ => .num .nan),
      ("addedAt", orJs added (.num (.fin now))),
      ("metadataSource", orJs msrc (.str defaultSource)) ])

/-- `manifest.map(item => ({...}))` over a whole manifest array; the fresh
id for position `i` is `ids i`.  A throw at any entry aborts the whole
map (`none`). -/
def normalizeList (defaultSource : String) (ids : ℕ → String) (now : ℚ)
    (items : List JsVal) : Option (List JsVal) :=
  items.enum.mapM (fun p => normalizeItem defaultSource (ids p.1) now p.2)

/-! ## Manifest loading -/

/-- The observable outcome of `fetch('books.json', {cache:'no-store'})`
followed by `res.json()`: the fetch can reject, or respond with a
success flag and a body that parses to a JS value or fails to parse
(`none`). -/
inductive FetchResult where
  | netError
  | status (ok : Bool) (body : Option JsVal)
  deriving DecidableEq, Repr

/-- `tryLoadManifest`: `null` (`none`) on network failure, non-success
status, a body that fails to parse, or a parsed body that is not an
array; otherwise the parsed array. -/
def tryLoadManifest : FetchResult → Option (List JsVal)
  | .netError => none
  | .status ok body =>
      if !ok then none
      else
        match body with
        | none => none
        | some v =>
            match v with
            | .arr xs => some xs
            | _ => none

/-! ## Application state

`state.books` is whatever value the catalog currently holds (an array of
normalized records in normal operation, but `loadBooks` can assign any
parsed JSON value).  `stored` models the `library_books_v1` entry written
by `saveBooks`; serialization is abstracted to the value itself. -/

structure AppState where
  books : JsVal
  stored : Option JsVal
  deriving DecidableEq, Repr

/-- `saveBooks()`: persist the whole catalog. -/
def saveBooks (s : AppState) : AppState := { s with stored := some s.books }

/-- `scanBooks()`'s effect on the catalog state, given the fetch outcome.
Returns the new state and whether the blocking `alert` for a missing or
empty manifest fired.  When the normalization map throws (see
`normalizeItem`) the assignment to `state.books` never happens and
nothing is persisted. -/
def scanBooks (ids : ℕ → String) (now : ℚ) (s : AppState) (fr : FetchResult) :
    AppState × Bool :=
  match tryLoadManifest fr with
  | none => (s, true)
  | some manifest =>
      if manifest.isEmpty then (s, true)
      else
        match normalizeList "manifest" ids now manifest with
        | none => (s, false)
        | some bs => (saveBooks { s with books := .arr bs }, false)

/-- `importBooksJson(file)`'s effect on the catalog state.  The input is
the result of `JSON.parse` on the file text (`none` when parsing throws).
The returned flag is `true` for the success alert, `false` when the
`catch` branch reported a failure and left the state untouched. -/
def importBooksJson (ids : ℕ → String) (now : ℚ) (s : AppState)
    (parsed : Option JsVal) : AppState × Bool :=
  match parsed with
  | none => (s, false)
  | some v =>
      match v with
      | .arr arr =>
          match normalizeList "import" ids now arr with
          | none => (s, false)
          | some bs => (saveBooks { s with books := .arr bs }, true)
      | _ => (s, false)

/-! ## Export -/

/-- One record of the exported manifest: every persisted field of the
book, minus the derived `filename`, with `sizeBytes` set to `undefined`
when not a finite number.  `JSON.stringify` omits an `undefined`-valued
key, which the model applies directly (on the well-formed records the
claims quantify over, stringify/parse is otherwise the identity). -/
def exportBook (b : JsVal) : Option JsVal := do
  let id ← getFieldE b "id"
  let title ← getFieldE b "title"
  let author ← getFieldE b "author"
  let fieldv ← getFieldE b "field"
  let tags ← getFieldE b "tags"
  let descr ← getFieldE b "description"
  let path ← getFieldE b "path"
  let size ← getFieldE b "sizeBytes"
  let added ← getFieldE b "addedAt"
  let msrc ← getFieldE b "metadataSource"
  pure (.obj
    ([ ("id", id), ("title", title), ("author", author), ("field", fieldv),
       ("tags", tags), ("description", descr), ("path", path) ]
     ++ (if jsIsFiniteVal size then [("sizeBytes", size)] else [])
     ++ [ ("addedAt", added), ("metadataSource", msrc) ]))

/-- `exportBooksJson()`: the manifest array offered for download
(`state.books.map(b => ({...}))`). -/
def exportBooksJson (books : List JsVal) : Option (List JsVal) :=
  books.mapM exportBook

/-! ## Persistence of configuration and catalog -/

/-- The configuration object.  Fields hold JS values: `loadConfig` merges
whatever was persisted over the defaults without validation. -/
structure Config where
  rootFolder : JsVal
  fuzzySearch : JsVal
  searchThreshold : JsVal
  maxViewerSizeMB : JsVal
  deriving DecidableEq, Repr

/-- `DEFAULT_CONFIG`. -/
def DEFAULT_CONFIG : Config :=
  { rootFolder := .str "Books"
    fuzzySearch := .bool true
    searchThreshold := .num (.fin (2/5))
    maxViewerSizeMB := .num (.fin 10) }

/-- Value of key `k` in a spread-merge `{...DEFAULT_CONFIG, ...parsed}`:
the parsed object's own value when the key is present (even if falsy),
else the default. -/
def cfgField (fs : List (String × JsVal)) (k : String) (d : JsVal) : JsVal :=
  match fs.find? (fun p => p.1 == k) with
  | some p => p.2
  | none => d

/-- `loadConfig()` over the persisted `library_config_v1` entry: absent
(`none`) keeps the defaults, an unparseable entry (`some none`) falls
back to the defaults via the `catch`, and a parsed object is spread over
the defaults.  A parsed non-object contributes no named own properties to
the spread, so the defaults survive. -/
def loadConfig : Option (Option JsVal) → Config
  | none => DEFAULT_CONFIG
  | some none => DEFAULT_CONFIG
  | some (some v) =>
      match v with
      | .obj fs =>
          { rootFolder := cfgField fs "rootFolder" DEFAULT_CONFIG.rootFolder
            fuzzySearch := cfgField fs "fuzzySearch" DEFAULT_CONFIG.fuzzySearch
            searchThreshold := cfgField fs "searchThreshold" DEFAULT_CONFIG.searchThreshold
            maxViewerSizeMB := cfgField fs "maxViewerSizeMB" DEFAULT_CONFIG.maxViewerSizeMB }
      | _ => DEFAULT_CONFIG

/-- `loadBooks()` over the persisted `library_books_v1` entry: absent
(`none`) leaves the initial empty catalog, an unparseable entry
(`some none`) falls back to `[]` via the `catch`, and any parsed value is
assigned to `state.books` unvalidated. -/
def loadBooks : Option (Option JsVal) → JsVal
  | none => .arr []
  | some none => .arr []
  | some (some v) => v

/-! ## Configuration save handlers (`#saveConfigBtn` listener) -/

/-- `state.config.maxViewerSizeMB = Math.max(1, Math.min(50,
parseInt($('#maxViewerSize').value, 10) || 10))` — note that `|| 10`
replaces the falsy parse results `NaN` **and** `0` by the default. -/
def saveMaxViewerSizeMB (input : String) : ℚ :=
  let n : ℚ :=
    match jsParseInt input with
    | some q => if q = 0 then 10 else q
    | none => 10
  max 1 (min 50 n)

/-- `state.config.searchThreshold = parseFloat($('#searchThreshold').value)
|| 0.4` — the falsy parse results `NaN` and `0` both become `0.4`. -/
def saveSearchThreshold (input : String) : JsNum :=
  match jsParseFloat input with
  | .fin q => if q = 0 then .fin (2/5) else .fin q
  | .nan => .fin (2/5)
  | .inf => .inf
  | .ninf => .ninf

/-! ## PDF viewer eligibility (`openPdf`) -/

/-- Which way `openPdf` opens a document: the inline viewer panel, or
`window.open` in a new external browsing context.  (The opened URL —
`encodeURI(book.path)` — and the viewer-state reset are not modelled; the
claims concern only which action is taken.) -/
inductive OpenAction where
  | inline
  | external
  deriving DecidableEq, Repr

/-- The branch of `openPdf(book)`:
`const sizeMB = Number.isFinite(book.sizeBytes) ? book.sizeBytes / (1024 * 1024) : NaN;`
`const allowInline = !Number.isFinite(sizeMB) || sizeMB <= state.config.maxViewerSizeMB;`
(division of a double by `2^20` is exact, so the rational model agrees). -/
def openPdf (book : JsVal) (maxViewerSizeMB : JsVal) : OpenAction :=
  let sizeMB : JsNum :=
    if jsIsFiniteVal (getF book "sizeBytes") then
      match getF book "sizeBytes" with
      | .num (.fin q) => .fin (q / (1024 * 1024))
      | _ => .nan
    else .nan
  let allowInline := !sizeMB.isFinite || jsNumLe sizeMB (jsToNum maxViewerSizeMB)
  if allowInline then .inline else .external

/-! ## Facets (`rebuildFacets`) -/

/-- JS `Set` membership equality (SameValueZero): like `===` except that
`NaN` equals `NaN`. -/
def jsSameValueZero (a b : JsVal) : Bool :=
  match a, b with
  | .num .nan, .num .nan => true
  | _, _ => jsStrictEq a b

/-- `new Set(xs)` keeps the first occurrence of each value, in insertion
order. -/
def jsDedup (xs : List JsVal) : List JsVal :=
  xs.foldl (fun acc x => if acc.any (fun y => jsSameValueZero y x) then acc else acc ++ [x]) []

/-- The state part of `rebuildFacets()`: the field set
`new Set(state.books.map(b => b.field).filter(Boolean))` and the tag set
`new Set(state.books.flatMap(b => b.tags || []).filter(Boolean))`.
Throws (`none`) when `state.books` is not an array (`.map` is not a
function) or an element is `null`/`undefined`.  The rebuilt DOM controls
are not modelled. -/
def rebuildFacets (books : JsVal) : Option (List JsVal × List JsVal) := do
  let bs ← match books with | .arr xs => some xs | _ => none
  let fieldsRaw ← bs.mapM (fun b => getFieldE b "field")
  let fields := jsDedup (fieldsRaw.filter truthy)
  let tagsRaw ← bs.mapM (fun b => getFieldE b "tags")
  let tagsFlat :=
    (tagsRaw.map (fun t => orJs t (.arr []))).flatMap
      (fun t => match t with | .arr xs => xs | v => [v])
  let tags := jsDedup (tagsFlat.filter truthy)
  pure (fields, tags)

/-! ## Search index (`initFuse`)

The fuzzy-search library is vendored third-party code; `new Fuse(books,
options).search` is modelled by an opaque total function `mkFuse books`
returning, for a query, the matched documents in score order (the score
wrapper `r.item` projection is folded in). -/

/-- `initFuse()`: no index when fuzzy search is disabled or the catalog
length is strictly equal to `0`; the `||` short-circuits, so the length
of `state.books` is only read (and can only throw) when fuzzy search is
enabled. -/
def initFuse (mkFuse : JsVal → String → List JsVal) (cfg : Config) (books : JsVal) :
    Option (Option (String → List JsVal)) :=
  if !truthy cfg.fuzzySearch then some none
  else do
    let len ← getFieldE books "length"
    if jsStrictEq len (.num (.fin 0)) then pure none
    else pure (some (mkFuse books))

/-! ## Filter/sort/render pipeline (`applyFiltersAndRender`) -/

/-- The view-relevant state read and written by `applyFiltersAndRender`:
the catalog, the derived filtered list, the current values of the search
input, field select, active tag set and sort select, and the search
index. -/
structure ViewState where
  books : JsVal
  filteredBooks : List JsVal
  query : String
  fieldVal : String
  activeTags : List String
  sortKey : String
  fuse : Option (String → List JsVal)

/-- `[...v]`: array spread copies the elements; strings are iterable
character-wise; spreading anything else the program could hold here is a
`TypeError`. -/
def jsSpreadE : JsVal → Option (List JsVal)
  | .arr xs => some xs
  | .str s => some (s.toList.map (fun c => .str (String.mk [c])))
  | _ => none

/-- A `filter` whose predicate can throw, aborting the whole filter. -/
def filterE {α : Type} (p : α → Option Bool) : List α → Option (List α)
  | [] => some []
  | x :: xs => do
      let b ← p x
      let rest ← filterE p xs
      pure (if b then x :: rest else rest)

/-- A `findIndex` whose predicate can throw.  `some none` is the source's
`-1`. -/
def findIndexE {α : Type} (p : α → Option Bool) : List α → Option (Option ℕ)
  | [] => some none
  | x :: xs => do
      let b ← p x
      if b then pure (some 0)
      else do
        let r ← findIndexE p xs
        pure (r.map (· + 1))

/-- `(v || '').toLowerCase().includes(q)`: only strings have
`toLowerCase`, so a truthy non-string field value throws. -/
def lowerIncludes (v : JsVal) (q : String) : Option Bool :=
  match orJs v (.str "") with
  | .str s => some (strIncludes (strToLower s) q)
  | _ => none

/-- `tags.some(t => t.toLowerCase().includes(q))` with JS short-circuit
evaluation. -/
def tagsSomeMatch (q : String) : List JsVal → Option Bool
  | [] => some false
  | t :: ts => do
      let tl ← match t with | .str s => some (strToLower s) | _ => none
      if strIncludes tl q then pure true else tagsSomeMatch q ts

/-- The plain (non-fuzzy) match predicate of `applyFiltersAndRender`,
with the `||` chain's short-circuiting: title, author, field, then any
tag, compared case-insensitively as substrings.  `q` is the already
lower-cased query. -/
def plainMatch (q : String) (b : JsVal) : Option Bool := do
  let title ← getFieldE b "title"
  let m1 ← lowerIncludes title q
  if m1 then pure true
  else do
    let author ← getFieldE b "author"
    let m2 ← lowerIncludes author q
    if m2 then pure true
    else do
      let fieldv ← getFieldE b "field"
      let m3 ← lowerIncludes fieldv q
      if m3 then pure true
      else do
        let tags ← getFieldE b "tags"
        match orJs tags (.arr []) with
        | .arr ts => tagsSomeMatch q ts
        | _ => none

/-- `b.field === fieldVal` (the field-select filter). -/
def fieldFilterPred (fieldVal : String) (b : JsVal) : Option Bool := do
  let f ← getFieldE b "field"
  pure (jsStrictEq f (.str fieldVal))

/-- The conjunctive tag filter: `bt = new Set((b.tags || []).map(String))`
and every active tag must be in `bt`. -/
def tagFilterPred (activeTags : List String) (b : JsVal) : Option Bool := do
  let tags ← getFieldE b "tags"
  let bt ← match orJs tags (.arr []) with
           | .arr ts => some (ts.map jsToStr)
           | _ => none
  pure (activeTags.all (fun t => bt.contains t))

/-- `recv.localeCompare(arg)`: the receiver must be a string (else
`TypeError`); the argument is coerced with `ToString`.  The host's
locale-aware ordering is the parameter `loc`. -/
def localeCompareE (loc : String → String → ℤ) (recv arg : JsVal) : Option ℤ :=
  match recv with
  | .str s => some (loc s (jsToStr arg))
  | _ => none

/-- The sign a comparison sort extracts from a numeric comparator result;
per the `SortCompare` specification a `NaN` result counts as `0`. -/
def numCmpVal : JsNum → ℤ
  | .nan => 0
  | .inf => 1
  | .ninf => -1
  | .fin q => if q < 0 then -1 else if 0 < q then 1 else 0

/-- The `switch (sort)` comparator of `applyFiltersAndRender`.  Note that
the `title` cases read `a.title` with no `|| ''` fallback. -/
def sortCmp (loc : String → String → ℤ) (key : String) (a b : JsVal) : Option ℤ :=
  if key == "title-desc" then do
    let ta ← getFieldE a "title"
    let tb ← getFieldE b "title"
    let c ← localeCompareE loc ta tb
    pure (-c)
  else if key == "author" then do
    let aa ← getFieldE a "author"
    let ab ← getFieldE b "author"
    localeCompareE loc (orJs aa (.str "")) (orJs ab (.str ""))
  else if key == "author-desc" then do
    let aa ← getFieldE a "author"
    let ab ← getFieldE b "author"
    let c ← localeCompareE loc (orJs aa (.str "")) (orJs ab (.str ""))
    pure (-c)
  else if key == "field" then do
    let fa ← getFieldE a "field"
    let fb ← getFieldE b "field"
    localeCompareE loc (orJs fa (.str "")) (orJs fb (.str ""))
  else if key == "size" then do
    let sa ← getFieldE a "sizeBytes"
    let sb ← getFieldE b "sizeBytes"
    pure (numCmpVal (jsNumSub (jsToNum (orJs sa (.num (.fin 0))))
                              (jsToNum (orJs sb (.num (.fin 0))))))
  else if key == "date" then do
    let da ← getFieldE a "addedAt"
    let db ← getFieldE b "addedAt"
    pure (numCmpVal (jsNumSub (jsToNum (orJs da (.num (.fin 0))))
                              (jsToNum (orJs db (.num (.fin 0))))))
  else do
    let ta ← getFieldE a "title"
    let tb ← getFieldE b "title"
    localeCompareE loc ta tb

/-- Stable insertion step for the sort model. -/
def insertSorted {α : Type} (cmp : α → α → Option ℤ) (x : α) : List α → Option (List α)
  | [] => some [x]
  | y :: ys => do
      let c ← cmp x y
      if c < 0 then pure (x :: y :: ys)
      else do
        let rest ← insertSorted cmp x ys
        pure (y :: rest)

/-- `Array.prototype.sort` is a stable comparison sort; the claims never
inspect the resulting order, so it is modelled as a stable insertion
sort.  A comparator throw aborts the sort (`none`). -/
def sortByCmp {α : Type} (cmp : α → α → Option ℤ) (xs : List α) : Option (List α) :=
  xs.foldlM (fun acc x => insertSorted cmp x acc) []

/-- The list-computation core of `applyFiltersAndRender()`: spread-copy
the catalog, apply the text search (index query or plain matching), the
field filter, the conjunctive tag filter, and the selected sort, in that
fixed order. -/
def computeFiltered (loc : String → String → ℤ) (s : ViewState) :
    Option (List JsVal) := do
  let query := trimS s.query
  let base ← jsSpreadE s.books
  let afterSearch ←
    if query != "" then
      match s.fuse with
      | some f => pure (f query)
      | none => filterE (plainMatch (strToLower query)) base
    else pure base
  let afterField ←
    if s.fieldVal != "" then filterE (fieldFilterPred s.fieldVal) afterSearch
    else pure afterSearch
  let afterTags ←
    if !s.activeTags.isEmpty then filterE (tagFilterPred s.activeTags) afterField
    else pure afterField
  sortByCmp (sortCmp loc s.sortKey) afterTags

/-- `applyFiltersAndRender()` as a state transformer.  The pipeline works
on the spread copy `[...state.books]` — the in-place `list.sort` mutates
that copy, never the catalog — and assigns only `state.filteredBooks`.
When a pipeline step throws, nothing has been assigned, so the state is
returned unchanged together with the `true` throw flag.  Rendering is not
modelled. -/
def applyFiltersAndRender (loc : String → String → ℤ) (s : ViewState) :
    ViewState × Bool :=
  match computeFiltered loc s with
  | some l => ({ s with filteredBooks := l }, false)
  | none => (s, true)

/-! ## Boot (`boot`) -/

/-- The state produced by a successful boot. -/
structure BootResult where
  config : Config
  books : JsVal
  fields : List JsVal
  tags : List JsVal
  filteredBooks : List JsVal

/-- `boot()`: load configuration and catalog from persistence, build the
search index, recompute facets, and compute the initial filtered view
with the initial control values (empty query, all fields, no active tags,
default `title` sort).  `bindEvents` is DOM-only and not modelled.
`none` means an uncaught exception aborts the boot sequence. -/
def boot (loc : String → String → ℤ) (mkFuse : JsVal → String → List JsVal)
    (storedConfig storedBooks : Option (Option JsVal)) : Option BootResult := do
  let cfg := loadConfig storedConfig
  let books := loadBooks storedBooks
  let fuse ← initFuse mkFuse cfg books
  let (fields, tags) ← rebuildFacets books
  let filtered ← computeFiltered loc
    { books := books, filteredBooks := [], query := "", fieldVal := "",
      activeTags := [], sortKey := "title", fuse := fuse }
  pure { config := cfg, books := books, fields := fields, tags := tags,
         filteredBooks := filtered }

/-! ## Metadata editor (`#editForm` submit handler) -/

/-- The trimmed-on-save form fields of the edit modal. -/
structure EditForm where
  title : String
  author : String
  field : String
  tags : String
  description : String

/-- `$('#editTags').value.split(',').map(s => s.trim()).filter(Boolean)`. -/
def parseTagsInput (s : String) : JsVal :=
  .arr ((((splitOnChar ',' s).map trimS).filter (fun t => t != "")).map .str)

/-- A key update inside an object literal `{...old, k: v, ...}`: an
existing key keeps its position with the new value, a new key is
appended. -/
def setKey (fs : List (String × JsVal)) (k : String) (v : JsVal) :
    List (String × JsVal) :=
  if fs.any (fun p => p.1 == k) then
    fs.map (fun p => if p.1 == k then (k, v) else p)
  else fs ++ [(k, v)]

/-- The own enumerable properties object spread copies. -/
def objFields : JsVal → List (String × JsVal)
  | .obj fs => fs
  | _ => []

/-- `{...b, updates}`. -/
def objMerge (b : JsVal) (updates : List (String × JsVal)) : JsVal :=
  .obj (updates.foldl (fun fs p => setKey fs p.1 p.2) (objFields b))

/-- The record the `#editForm` submit handler writes back: the old record
spread into an object literal that overwrites the five edited fields and
sets `metadataSource: (state.books[idx].metadataSource || 'manifest') +
'+manual'` (`+` with a string operand concatenates after `ToString`). -/
def editUpdatedBook (form : EditForm) (old : JsVal) : JsVal :=
  objMerge old
    [ ("title", .str (trimS form.title)),
      ("author", .str (trimS form.author)),
      ("field", .str (trimS form.field)),
      ("tags", parseTagsInput form.tags),
      ("description", .str (trimS form.description)),
      ("metadataSource",
        .str (jsToStr (orJs (getF old "metadataSource") (.str "manifest")) ++ "+manual")) ]

/-- The catalog part of the submit: find the edit target, replace it with
`editUpdatedBook`, persist. -/
def editFormSubmit (s : AppState) (editingId : JsVal) (form : EditForm) :
    Option AppState := do
  let bs ← match s.books with | .arr xs => some xs | _ => none
  let idx ← findIndexE (fun b => do
      let i ← getFieldE b "id"
      pure (jsStrictEq i editingId)) bs
  match idx with
  | none => pure s
  | some i =>
      let old := bs.getD i .undef
      pure (saveBooks { s with books := .arr (bs.set i (editUpdatedBook form old)) })

/-! ## Well-formed catalog records

The data model of §3 of the specification: a normalized record as built
by `normalizeItem`, with string-typed string fields, a non-empty `id`, a
numeric `sizeBytes`, a non-zero numeric `addedAt`, a non-empty
`metadataSource`, and `filename` derived from `path`. -/

/-- A catalog record with the normalized shape, fields in the order
`normalizeItem` creates them. -/
def mkBook (id title author fieldv : String) (tags : List String)
    (descr path filename : String) (sz : JsNum) (addedAt : ℚ) (msrc : String) :
    JsVal :=
  .obj
    [ ("id", .str id), ("title", .str title), ("author", .str author),
      ("field", .str fieldv), ("tags", .arr (tags.map .str)),
      ("description", .str descr), ("path", .str path),
      ("filename", .str filename), ("sizeBytes", .num sz),
      ("addedAt", .num (.fin addedAt)), ("metadataSource", .str msrc) ]

/-- Well-formedness of one catalog record (specification §3). -/
def WfBook (b : JsVal) : Prop :=
  ∃ (id title author fieldv : String) (tags : List String)
    (descr path : String) (sz : JsNum) (addedAt : ℚ) (msrc : String),
    b = mkBook id title author fieldv tags descr path
          (lastSegment path) sz addedAt msrc
    ∧ id ≠ "" ∧ addedAt ≠ 0 ∧ msrc ≠ ""

/-- What one export/import cycle does to a `sizeBytes` value: a finite
number survives, everything else (omitted on export) comes back as the
`NaN` sentinel. -/
def normSizeVal (v : JsVal) : JsVal :=
  match v with
  | .num (.fin q) => .num (.fin q)
  | _ => .num .nan

/-- A record after one export/import cycle: identical except that its
`sizeBytes` value goes through `normSizeVal`. -/
def importRenorm (b : JsVal) : JsVal :=
  match b with
  | .obj fs => .obj (fs.map (fun p => if p.1 == "sizeBytes" then (p.1, normSizeVal p.2) else p))
  | v => v

/-- A fixed locale comparison used to instantiate closed statements. -/
def locDefault : String → String → ℤ := fun _ _ => 0

/-- A fixed search-index behavior used to instantiate closed statements. -/
def fuseDefault : JsVal → String → List JsVal := fun _ _ => []

/-- What one export/import cycle does to a number. -/
def normSize : JsNum → JsNum
  | .fin q => .fin q
  | _ => .nan

/-- The inline-eligibility rule as the specification words it: a document
opens inline exactly when its size is unknown (not a finite number) or
its size in megabytes (`sizeBytes / 1,048,576`) is at most the
configured threshold. -/
def inlineEligibleSpec (sizeBytes : JsVal) (maxMB : ℚ) : Bool :=
  match sizeBytes with
  | .num (.fin q) => decide (q / 1048576 ≤ maxMB)
  | _ => true


/-! ## Helper lemmas -/

theorem truthy_str (s : String) : truthy (.str s) = (s != "") := rfl

theorem orJs_str_empty (s : String) : orJs (.str s) (.str "") = .str s := by
  by_cases h : s = "" <;> simp [orJs, truthy, h]

theorem orJs_str_of_ne (s : String) (d : JsVal) (h : s ≠ "") :
    orJs (.str s) d = .str s := by
  simp [orJs, truthy, h]

theorem orJs_arr (xs : List JsVal) (d : JsVal) : orJs (.arr xs) d = .arr xs := by
  simp [orJs, truthy]

theorem orJs_fin_of_ne (q : ℚ) (d : JsVal) (h : q ≠ 0) :
    orJs (.num (.fin q)) d = .num (.fin q) := by
  simp [orJs, truthy, h]


/-! ## Supporting lemmas -/

theorem any_eq_false_of_not {α : Type} (f : α → Bool) (l : List α)
    (h : ¬ l.any f = true) : l.any f = false := by
  cases hx : l.any f with
  | true => exact absurd hx h
  | false => rfl

theorem mapM_eq_none {α β : Type} (f : α → Option β) :
    ∀ (l : List α), (∃ x ∈ l, f x = none) → l.mapM f = none := by
  intro l
  induction l with
  | nil => rintro ⟨x, hx, -⟩; cases hx
  | cons y ys ih =>
      rintro ⟨x, hx, hfx⟩
      rw [List.mapM_cons]
      rcases List.mem_cons.mp hx with rfl | hmem
      · rw [hfx]; rfl
      · cases hfy : f y
        · rfl
        · rw [ih ⟨x, hmem, hfx⟩]; rfl

theorem exists_mem_enumFrom {α : Type} (x : α) :
    ∀ (l : List α) (n : ℕ), x ∈ l → ∃ i, (i, x) ∈ l.enumFrom n := by
  intro l
  induction l with
  | nil => intro n h; cases h
  | cons y ys ih =>
      intro n h
      rcases List.mem_cons.mp h with rfl | hm
      · exact ⟨n, by simp [List.enumFrom]⟩
      · obtain ⟨i, hi⟩ := ih (n + 1) hm
        exact ⟨i, by simp [List.enumFrom, hi]⟩

theorem find?_map_update_of_any (k : String) (v : JsVal) :
    ∀ (fs : List (String × JsVal)), fs.any (fun p => p.1 == k) = true →
      (fs.map (fun p => if p.1 == k then (k, v) else p)).find? (fun p => p.1 == k)
        = some (k, v) := by
  intro fs
  induction fs with
  | nil => intro h; simp at h
  | cons p ps ih =>
      intro h
      obtain ⟨k0, v0⟩ := p
      rw [List.map_cons]
      by_cases hk : k0 = k
      · subst hk
        rw [if_pos (by simp)]
        simp only [List.find?, beq_self_eq_true]
      · have hkb : (k0 == k) = false := beq_eq_false_iff_ne.mpr hk
        rw [if_neg (by simp [hk])]
        simp only [List.find?, hkb]
        apply ih
        simp only [List.any_cons, hkb, Bool.false_or] at h
        exact h

theorem find?_self_append (k : String) (v : JsVal) :
    ∀ (fs : List (String × JsVal)), fs.any (fun p => p.1 == k) = false →
      (fs ++ [(k, v)]).find? (fun p => p.1 == k) = some (k, v) := by
  intro fs
  induction fs with
  | nil =>
      intro _
      rw [List.nil_append]
      simp only [List.find?, beq_self_eq_true]
  | cons p ps ih =>
      intro h
      obtain ⟨k0, v0⟩ := p
      simp only [List.any_cons, Bool.or_eq_false_iff] at h
      rw [List.cons_append]
      simp only [List.find?, h.1]
      exact ih h.2

theorem find?_setKey_self (k : String) (v : JsVal) (fs : List (String × JsVal)) :
    (setKey fs k v).find? (fun p => p.1 == k) = some (k, v) := by
  unfold setKey
  by_cases h : fs.any (fun p => p.1 == k)
  · rw [if_pos h]; exact find?_map_update_of_any k v fs h
  · rw [if_neg h]; exact find?_self_append k v fs (any_eq_false_of_not _ _ h)

theorem find?_setKey_ne (k : String) (v : JsVal) (k' : String) (h : k' ≠ k) :
    ∀ (fs : List (String × JsVal)),
      (setKey fs k v).find? (fun p => p.1 == k') = fs.find? (fun p => p.1 == k') := by
  have hkk : ((k : String) == k') = false := beq_eq_false_iff_ne.mpr (Ne.symm h)
  have haux : ∀ (fs : List (String × JsVal)),
      (fs.map (fun p => if p.1 == k then (k, v) else p)).find? (fun p => p.1 == k')
        = fs.find? (fun p => p.1 == k') := by
    intro fs
    induction fs with
    | nil => rfl
    | cons p ps ih =>
        obtain ⟨k0, v0⟩ := p
        rw [List.map_cons]
        by_cases hk : k0 = k
        · subst hk
          rw [if_pos (by simp)]
          simp only [List.find?, hkk]
          exact ih
        · rw [if_neg (by simp [hk])]
          by_cases hk' : k0 = k'
          · subst hk'
            simp only [List.find?, beq_self_eq_true]
          · have hb : (k0 == k') = false := beq_eq_false_iff_ne.mpr hk'
            simp only [List.find?, hb]
            exact ih
  intro fs
  unfold setKey
  by_cases hany : fs.any (fun p => p.1 == k)
  · rw [if_pos hany]; exact haux fs
  · rw [if_neg hany]
    rw [List.find?_append]
    cases hf : fs.find? (fun p => p.1 == k') with
    | some p => rfl
    | none =>
        show Option.or none _ = none
        simp only [List.find?, hkk]
        rfl


theorem getF_obj (fs : List (String × JsVal)) (k : String) :
    getF (.obj fs) k
      = (match fs.find? (fun p => p.1 == k) with | some p => p.2 | none => .undef) := rfl

theorem getF_editUpdatedBook_ms (form : EditForm) (old : JsVal) :
    getF (editUpdatedBook form old) "metadataSource"
      = .str (jsToStr (orJs (getF old "metadataSource") (.str "manifest")) ++ "+manual") := by
  unfold editUpdatedBook objMerge
  simp only [List.foldl]
  rw [getF_obj, find?_setKey_self]

theorem getF_editUpdatedBook_id (form : EditForm) (old : JsVal) :
    getF (editUpdatedBook form old) "id" = getF old "id" := by
  unfold editUpdatedBook objMerge
  simp only [List.foldl]
  rw [getF_obj, find?_setKey_ne _ _ _ (by decide), find?_setKey_ne _ _ _ (by decide),
      find?_setKey_ne _ _ _ (by decide), find?_setKey_ne _ _ _ (by decide),
      find?_setKey_ne _ _ _ (by decide), find?_setKey_ne _ _ _ (by decide)]
  cases old <;> rfl

theorem findIndexE_found {α : Type} (p : α → Option Bool) (dflt : α) :
    ∀ (l : List α) (i : ℕ), findIndexE p l = some (some i) →
      i < l.length ∧ p (l.getD i dflt) = some true := by
  intro l
  induction l with
  | nil => intro i h; simp [findIndexE] at h
  | cons x xs ih =>
      intro i h
      unfold findIndexE at h
      cases hp : p x with
      | none => rw [hp] at h; simp at h
      | some b =>
          rw [hp] at h
          cases b with
          | true =>
              simp at h
              obtain rfl := h
              exact ⟨by simp, by simpa [List.getD] using hp⟩
          | false =>
              cases hr : findIndexE p xs with
              | none => rw [hr] at h; simp at h
              | some r =>
                  rw [hr] at h
                  simp at h
                  cases r with
                  | none => simp at h
                  | some j =>
                      simp at h
                      obtain rfl := h.symm
                      obtain ⟨h1, h2⟩ := ih j hr
                      exact ⟨Nat.succ_lt_succ h1, by simpa [List.getD] using h2⟩

theorem findIndexE_set {α : Type} (p : α → Option Bool) (x : α) :
    ∀ (l : List α) (i : ℕ), findIndexE p l = some (some i) → p x = some true →
      findIndexE p (l.set i x) = some (some i) := by
  intro l
  induction l with
  | nil => intro i h _; simp [findIndexE] at h
  | cons y ys ih =>
      intro i h hx
      unfold findIndexE at h
      cases hp : p y with
      | none => rw [hp] at h; simp at h
      | some b =>
          rw [hp] at h
          cases b with
          | true =>
              simp at h
              obtain rfl := h
              show findIndexE p (x :: ys) = some (some 0)
              unfold findIndexE
              rw [hx]
              rfl
          | false =>
              cases hr : findIndexE p ys with
              | none => rw [hr] at h; simp at h
              | some r =>
                  rw [hr] at h
                  simp at h
                  cases r with
                  | none => simp at h
                  | some j =>
                      simp at h
                      obtain rfl := h.symm
                      show findIndexE p (y :: ys.set j x) = some (some (j + 1))
                      unfold findIndexE
                      rw [hp, ih j hr hx]
                      rfl

theorem getD_set_self {α : Type} (dflt x : α) :
    ∀ (l : List α) (i : ℕ), i < l.length → (l.set i x).getD i dflt = x := by
  intro l
  induction l with
  | nil => intro i h; simp at h
  | cons y ys ih =>
      intro i h
      cases i with
      | zero => rfl
      | succ j =>
          show (ys.set j x).getD j dflt = x
          exact ih j (Nat.lt_of_succ_lt_succ h)

theorem startsWithL_append (n rest : List Char) : startsWithL (n ++ rest) n = true := by
  induction n with
  | nil => cases rest <;> rfl
  | cons c n ih => simp [startsWithL, ih]

theorem strEndsWith_append (s t : String) : strEndsWith (s ++ t) t = true := by
  unfold strEndsWith
  have hdata : (s ++ t).data = s.data ++ t.data := rfl
  rw [hdata, List.reverse_append]
  exact startsWithL_append _ _

theorem str_append_ne_empty (s t : String) (h : t.data ≠ []) : s ++ t ≠ "" := by
  intro he
  have hd : s.data ++ t.data = [] := congrArg String.data he
  exact h (List.append_eq_nil.mp hd).2

theorem importRenorm_mkBook (id title author fieldv : String) (tags : List String)
    (descr path filename : String) (sz : JsNum) (addedAt : ℚ) (msrc : String) :
    importRenorm (mkBook id title author fieldv tags descr path filename sz addedAt msrc)
      = mkBook id title author fieldv tags descr path filename (normSize sz) addedAt msrc := by
  cases sz <;> rfl

theorem find?_mapSize (k : String) (hk : k ≠ "sizeBytes") :
    ∀ (fs : List (String × JsVal)),
      (fs.map (fun p => if p.1 == "sizeBytes" then (p.1, normSizeVal p.2) else p)).find?
          (fun p => p.1 == k)
        = fs.find? (fun p => p.1 == k) := by
  intro fs
  induction fs with
  | nil => rfl
  | cons p ps ih =>
      obtain ⟨k0, v0⟩ := p
      rw [List.map_cons]
      by_cases h0 : k0 = "sizeBytes"
      · subst h0
        rw [if_pos (by simp)]
        have hb : (("sizeBytes" : String) == k) = false :=
          beq_eq_false_iff_ne.mpr (Ne.symm hk)
        simp only [List.find?, hb]
        exact ih
      · rw [if_neg (by simp [h0])]
        cases hc : (k0 == k) with
        | true => simp only [List.find?, hc]
        | false =>
            simp only [List.find?, hc]
            exact ih

theorem getF_importRenorm (b : JsVal) (k : String) (hk : k ≠ "sizeBytes") :
    getF (importRenorm b) k = getF b k := by
  cases b with
  | obj fs =>
      show getF (.obj (fs.map (fun p => if p.1 == "sizeBytes" then (p.1, normSizeVal p.2) else p))) k
        = getF (.obj fs) k
      rw [getF_obj, getF_obj, find?_mapSize k hk]
  | undef => rfl
  | jnull => rfl
  | bool b => rfl
  | num n => rfl
  | str s => rfl
  | arr xs => rfl

theorem enum_eq_enumFrom {α : Type} (l : List α) : l.enum = l.enumFrom 0 := rfl

/-- One record through export and re-import: every field is preserved,
`filename` re-derived from `path`, `sizeBytes` through `normSizeVal`. -/
theorem roundTrip_record (fresh : String) (now : ℚ)
    (id title author fieldv : String) (tags : List JsVal)
    (descr path : String) (sz : JsNum) (addedAt : ℚ) (msrc : String)
    (hid : id ≠ "") (ht : addedAt ≠ 0) (hms : msrc ≠ "") :
    (exportBook (JsVal.obj
      [ ("id", .str id), ("title", .str title), ("author", .str author),
        ("field", .str fieldv), ("tags", .arr tags),
        ("description", .str descr), ("path", .str path),
        ("filename", .str (lastSegment path)),
        ("sizeBytes", .num sz),
        ("addedAt", .num (.fin addedAt)), ("metadataSource", .str msrc) ])).bind
        (normalizeItem "import" fresh now)
      = some (JsVal.obj
      [ ("id", .str id), ("title", .str title), ("author", .str author),
        ("field", .str fieldv), ("tags", .arr tags),
        ("description", .str descr), ("path", .str path),
        ("filename", .str (lastSegment path)),
        ("sizeBytes", normSizeVal (.num sz)),
        ("addedAt", .num (.fin addedAt)), ("metadataSource", .str msrc) ]) := by
  rcases sz with q | _ | _ | _
  · have h1 : exportBook (JsVal.obj
      [ ("id", .str id), ("title", .str title), ("author", .str author),
        ("field", .str fieldv), ("tags", .arr tags),
        ("description", .str descr), ("path", .str path),
        ("filename", .str (lastSegment path)),
        ("sizeBytes", .num (.fin q)),
        ("addedAt", .num (.fin addedAt)), ("metadataSource", .str msrc) ])
      = some (JsVal.obj
      [ ("id", .str id), ("title", .str title), ("author", .str author),
        ("field", .str fieldv), ("tags", .arr tags),
        ("description", .str descr), ("path", .str path),
        ("sizeBytes", .num (.fin q)),
        ("addedAt", .num (.fin addedAt)), ("metadataSource", .str msrc) ]) := rfl
    have h2 : (some (JsVal.obj
      [ ("id", .str id), ("title", .str title), ("author", .str author),
        ("field", .str fieldv), ("tags", .arr tags),
        ("description", .str descr), ("path", .str path),
        ("sizeBytes", .num (.fin q)),
        ("addedAt", .num (.fin addedAt)), ("metadataSource", .str msrc) ])).bind
        (normalizeItem "import" fresh now)
      = some (JsVal.obj
      [ ("id", orJs (.str id) (.str fresh)), ("title", orJs (.str title) (.str "")),
        ("author", orJs (.str author) (.str "")), ("field", orJs (.str fieldv) (.str "")),
        ("tags", orJs (.arr tags) (.arr [])),
        ("description", orJs (.str descr) (.str "")), ("path", .str path),
        ("filename", .str (lastSegment path)), ("sizeBytes", .num (.fin q)),
        ("addedAt", orJs (.num (.fin addedAt)) (.num (.fin now))),
        ("metadataSource", orJs (.str msrc) (.str "import")) ]) := rfl
    rw [h1, h2, orJs_str_of_ne _ _ hid, orJs_str_empty, orJs_str_empty, orJs_str_empty,
        orJs_str_empty, orJs_arr, orJs_fin_of_ne _ _ ht, orJs_str_of_ne _ _ hms]
    rfl
  · have h1 : exportBook (JsVal.obj
      [ ("id", .str id), ("title", .str title), ("author", .str author),
        ("field", .str fieldv), ("tags", .arr tags),
        ("description", .str descr), ("path", .str path),
        ("filename", .str (lastSegment path)),
        ("sizeBytes", .num .nan),
        ("addedAt", .num (.fin addedAt)), ("metadataSource", .str msrc) ])
      = some (JsVal.obj
      [ ("id", .str id), ("title", .str title), ("author", .str author),
        ("field", .str fieldv), ("tags", .arr tags),
        ("description", .str descr), ("path", .str path),
        ("addedAt", .num (.fin addedAt)), ("metadataSource", .str msrc) ]) := rfl
    have h2 : (some (JsVal.obj
      [ ("id", .str id), ("title", .str title), ("author", .str author),
        ("field", .str fieldv), ("tags", .arr tags),
        ("description", .str descr), ("path", .str path),
        ("addedAt", .num (.fin addedAt)), ("metadataSource", .str msrc) ])).bind
        (normalizeItem "import" fresh now)
      = some (JsVal.obj
      [ ("id", orJs (.str id) (.str fresh)), ("title", orJs (.str title) (.str "")),
        ("author", orJs (.str author) (.str "")), ("field", orJs (.str fieldv) (.str "")),
        ("tags", orJs (.arr tags) (.arr [])),
        ("description", orJs (.str descr) (.str "")), ("path", .str path),
        ("filename", .str (lastSegment path)), ("sizeBytes", .num .nan),
        ("addedAt", orJs (.num (.fin addedAt)) (.num (.fin now))),
        ("metadataSource", orJs (.str msrc) (.str "import")) ]) := rfl
    rw [h1, h2, orJs_str_of_ne _ _ hid, orJs_str_empty, orJs_str_empty, orJs_str_empty,
        orJs_str_empty, orJs_arr, orJs_fin_of_ne _ _ ht, orJs_str_of_ne _ _ hms]
    rfl
  · have h1 : exportBook (JsVal.obj
      [ ("id", .str id), ("title", .str title), ("author", .str author),
        ("field", .str fieldv), ("tags", .arr tags),
        ("description", .str descr), ("path", .str path),
        ("filename", .str (lastSegment path)),
        ("sizeBytes", .num .inf),
        ("addedAt", .num (.fin addedAt)), ("metadataSource", .str msrc) ])
      = some (JsVal.obj
      [ ("id", .str id), ("title", .str title), ("author", .str author),
        ("field", .str fieldv), ("tags", .arr tags),
        ("description", .str descr), ("path", .str path),
        ("addedAt", .num (.fin addedAt)), ("metadataSource", .str msrc) ]) := rfl
    have h2 : (some (JsVal.obj
      [ ("id", .str id), ("title", .str title), ("author", .str author),
        ("field", .str fieldv), ("tags", .arr tags),
        ("description", .str descr), ("path", .str path),
        ("addedAt", .num (.fin addedAt)), ("metadataSource", .str msrc) ])).bind
        (normalizeItem "import" fresh now)
      = some (JsVal.obj
      [ ("id", orJs (.str id) (.str fresh)), ("title", orJs (.str title) (.str "")),
        ("author", orJs (.str author) (.str "")), ("field", orJs (.str fieldv) (.str "")),
        ("tags", orJs (.arr tags) (.arr [])),
        ("description", orJs (.str descr) (.str "")), ("path", .str path),
        ("filename", .str (lastSegment path)), ("sizeBytes", .num .nan),
        ("addedAt", orJs (.num (.fin addedAt)) (.num (.fin now))),
        ("metadataSource", orJs (.str msrc) (.str "import")) ]) := rfl
    rw [h1, h2, orJs_str_of_ne _ _ hid, orJs_str_empty, orJs_str_empty, orJs_str_empty,
        orJs_str_empty, orJs_arr, orJs_fin_of_ne _ _ ht, orJs_str_of_ne _ _ hms]
    rfl
  · have h1 : exportBook (JsVal.obj
      [ ("id", .str id), ("title", .str title), ("author", .str author),
        ("field", .str fieldv), ("tags", .arr tags),
        ("description", .str descr), ("path", .str path),
        ("filename", .str (lastSegment path)),
        ("sizeBytes", .num .ninf),
        ("addedAt", .num (.fin addedAt)), ("metadataSource", .str msrc) ])
      = some (JsVal.obj
      [ ("id", .str id), ("title", .str title), ("author", .str author),
        ("field", .str fieldv), ("tags", .arr tags),
        ("description", .str descr), ("path", .str path),
        ("addedAt", .num (.fin addedAt)), ("metadataSource", .str msrc) ]) := rfl
    have h2 : (some (JsVal.obj
      [ ("id", .str id), ("title", .str title), ("author", .str author),
        ("field", .str fieldv), ("tags", .arr tags),
        ("description", .str descr), ("path", .str path),
        ("addedAt", .num (.fin addedAt)), ("metadataSource", .str msrc) ])).bind
        (normalizeItem "import" fresh now)
      = some (JsVal.obj
      [ ("id", orJs (.str id) (.str fresh)), ("title", orJs (.str title) (.str "")),
        ("author", orJs (.str author) (.str "")), ("field", orJs (.str fieldv) (.str "")),
        ("tags", orJs (.arr tags) (.arr [])),
        ("description", orJs (.str descr) (.str "")), ("path", .str path),
        ("filename", .str (lastSegment path)), ("sizeBytes", .num .nan),
        ("addedAt", orJs (.num (.fin addedAt)) (.num (.fin now))),
        ("metadataSource", orJs (.str msrc) (.str "import")) ]) := rfl
    rw [h1, h2, orJs_str_of_ne _ _ hid, orJs_str_empty, orJs_str_empty, orJs_str_empty,
        orJs_str_empty, orJs_arr, orJs_fin_of_ne _ _ ht, orJs_str_of_ne _ _ hms]
    rfl


/-- A whole well-formed catalog through export and re-import, with the
fresh-id positions threaded from `n`. -/
theorem roundTrip_list (ids : ℕ → String) (now : ℚ) :
    ∀ (cat : List JsVal), (∀ b ∈ cat, WfBook b) →
    ∀ (n : ℕ), ∃ man, exportBooksJson cat = some man ∧
      (man.enumFrom n).mapM (fun p => normalizeItem "import" (ids p.1) now p.2)
        = some (cat.map importRenorm) := by
  intro cat
  induction cat with
  | nil => exact fun _ n => ⟨[], rfl, rfl⟩
  | cons b cat ih =>
      intro hwf n
      obtain ⟨id, title, author, fieldv, tags, descr, path, sz, addedAt, msrc,
        hb, hid, ht, hms⟩ := hwf b (List.mem_cons_self b cat)
      obtain ⟨man, hexp, hnorm⟩ := ih (fun x hx => hwf x (List.mem_cons_of_mem b hx)) (n + 1)
      have hrt := roundTrip_record (ids n) now id title author fieldv (tags.map .str)
        descr path sz addedAt msrc hid ht hms
      rw [show (JsVal.obj
        [ ("id", .str id), ("title", .str title), ("author", .str author),
          ("field", .str fieldv), ("tags", .arr (tags.map .str)),
          ("description", .str descr), ("path", .str path),
          ("filename", .str (lastSegment path)), ("sizeBytes", .num sz),
          ("addedAt", .num (.fin addedAt)), ("metadataSource", .str msrc) ])
        = b from hb.symm] at hrt
      obtain ⟨e, he, hni⟩ := Option.bind_eq_some.mp hrt
      refine ⟨e :: man, ?_, ?_⟩
      · show (b :: cat).mapM exportBook = some (e :: man)
        rw [List.mapM_cons, he]
        show (exportBooksJson cat).bind _ = _
        rw [hexp]
        rfl
      · show ((n, e) :: man.enumFrom (n + 1)).mapM
            (fun p => normalizeItem "import" (ids p.1) now p.2)
          = some (importRenorm b :: cat.map importRenorm)
        rw [List.mapM_cons]
        have hni2 : normalizeItem "import" (ids n) now e = some (importRenorm b) := by
          rw [hni, hb]
          rfl
        rw [hni2, hnorm]
        rfl

/-! ## Claim C1 -/

/-- C1 (catalog replacement): for every current catalog state and every
manifest array obtained by scan or import, the resulting catalog — in
memory and persisted — consists exactly of the normalized records of that
array, in order; nothing of the previous catalog survives, and the scan
and import operations never merge their input with the old catalog.  For
scan the array must be non-empty (an empty one counts as "no manifest"
and is the untouched-catalog case of C3); import accepts every array,
the empty one included, which then empties the whole catalog. -/
theorem catalog_replacement
    (s : AppState) (ids : ℕ → String) (now : ℚ) (manifest : List JsVal)
    (scanBs importBs : List JsVal)
    (hscan : normalizeList "manifest" ids now manifest = some scanBs)
    (himp : normalizeList "import" ids now manifest = some importBs) :
    (manifest ≠ [] →
      scanBooks ids now s (.status true (some (.arr manifest)))
        = ({ books := .arr scanBs, stored := some (.arr scanBs) }, false))
    ∧ importBooksJson ids now s (some (.arr manifest))
      = ({ books := .arr importBs, stored := some (.arr importBs) }, true) := by
  constructor
  · intro hne
    have hE : manifest.isEmpty = false := by
      cases manifest with
      | nil => exact absurd rfl hne
      | cons x xs => rfl
    have h1 : tryLoadManifest (.status true (some (.arr manifest))) = some manifest := rfl
    simp [scanBooks, h1, hE, hscan, saveBooks]
  · simp [importBooksJson, himp, saveBooks]

/-! ## Claim C3 -/

/-- C3 (scan failure atomicity): whenever the manifest fetch yields no
usable manifest — network failure, non-success status, unparseable body,
non-array body, or an empty array — `scanBooks` alerts the user and the
catalog state, in memory and persisted, is exactly what it was. -/
theorem scan_failure_atomicity
    (ids : ℕ → String) (now : ℚ) (s : AppState) (fr : FetchResult)
    (h : fr = .netError
       ∨ (∃ body, fr = .status false body)
       ∨ fr = .status true none
       ∨ (∃ v, fr = .status true (some v) ∧ ∀ xs, v ≠ JsVal.arr xs)
       ∨ fr = .status true (some (.arr []))) :
    scanBooks ids now s fr = (s, true) := by
  rcases h with h | ⟨b, h⟩ | h | ⟨v, h, hv⟩ | h
  · subst h; rfl
  · subst h; rfl
  · subst h; rfl
  · subst h
    cases v with
    | arr xs => exact absurd rfl (hv xs)
    | undef => rfl
    | jnull => rfl
    | bool b => rfl
    | num n => rfl
    | str s => rfl
    | obj fs => rfl
  · subst h; rfl

theorem scan_failure_atomicity_witness :
    scanBooks (fun _ => "f") 0 ⟨.arr [], none⟩ .netError = (⟨.arr [], none⟩, true) :=
  scan_failure_atomicity (fun _ => "f") 0 ⟨.arr [], none⟩ .netError (Or.inl rfl)

/-! ## Claim C5 -/

/-- C5 (counterexample): a manifest record lacking `path` is **not**
accepted: normalization throws a `TypeError` in `filenameFromPath`, so
scan and import leave the catalog untouched instead of accepting the
record. -/
theorem absent_path_counterexample :
    normalizeItem "manifest" "fresh" 0 (.obj [("title", .str "Notes")]) = none
    ∧ importBooksJson (fun _ => "fresh") 0 ⟨.arr [], none⟩
        (some (.arr [.obj [("title", .str "Notes")]]))
      = (⟨.arr [], none⟩, false)
    ∧ scanBooks (fun _ => "fresh") 0 ⟨.arr [], none⟩
        (.status true (some (.arr [.obj [("title", .str "Notes")]])))
      = (⟨.arr [], none⟩, false) :=
  ⟨rfl, rfl, rfl⟩

/-- C5 (amended): a manifest or import record lacking a `path` value makes
normalization throw, so the whole load is rejected: both scan and import
leave the catalog (memory and persisted) untouched, import reporting the
failure to the user, scan aborting without running its completion path. -/
theorem absent_path_amended
    (ids : ℕ → String) (now : ℚ) (s : AppState) (manifest : List JsVal)
    (item : JsVal) (hmem : item ∈ manifest)
    (fs : List (String × JsVal)) (hobj : item = .obj fs)
    (hpath : getF item "path" = .undef) :
    normalizeList "manifest" ids now manifest = none
    ∧ normalizeList "import" ids now manifest = none
    ∧ scanBooks ids now s (.status true (some (.arr manifest))) = (s, false)
    ∧ importBooksJson ids now s (some (.arr manifest)) = (s, false) := by
  subst hobj
  have hitem : ∀ (src fid : String), normalizeItem src fid now (.obj fs) = none := by
    intro src fid
    simp [normalizeItem, getFieldE, getF_obj] at hpath ⊢
    simp [hpath, filenameFromPath]
  have hlist : ∀ (src : String), normalizeList src ids now manifest = none := by
    intro src
    obtain ⟨i, hi⟩ := exists_mem_enumFrom _ manifest 0 hmem
    apply mapM_eq_none
    exact ⟨(i, .obj fs), by simpa [enum_eq_enumFrom] using hi, hitem src (ids i)⟩
  have hE : manifest.isEmpty = false := by
    cases manifest with
    | nil => cases hmem
    | cons x xs => rfl
  refine ⟨hlist "manifest", hlist "import", ?_, ?_⟩
  · have h1 : tryLoadManifest (.status true (some (.arr manifest))) = some manifest := rfl
    simp [scanBooks, h1, hE, hlist "manifest"]
  · simp [importBooksJson, hlist "import"]

theorem absent_path_amended_witness :
    normalizeList "manifest" (fun _ => "f") 0 [.obj [("title", .str "Notes")]] = none
    ∧ normalizeList "import" (fun _ => "f") 0 [.obj [("title", .str "Notes")]] = none
    ∧ scanBooks (fun _ => "f") 0 ⟨.arr [], none⟩
        (.status true (some (.arr [.obj [("title", .str "Notes")]])))
      = (⟨.arr [], none⟩, false)
    ∧ importBooksJson (fun _ => "f") 0 ⟨.arr [], none⟩
        (some (.arr [.obj [("title", .str "Notes")]]))
      = (⟨.arr [], none⟩, false) :=
  absent_path_amended (fun _ => "f") 0 ⟨.arr [], none⟩ _ _
    (List.mem_cons_self _ _) [("title", .str "Notes")] rfl rfl

/-! ## Claim C9 -/

/-- C9 (pipeline frame property): `applyFiltersAndRender` never mutates
the catalog — for every state (any catalog value, query, field
selection, active tags, sort key and index), the state after the run
holds exactly the same `books` value, whether the pipeline completed or
threw.  The pipeline filters and sorts the spread copy
`[...state.books]`. -/
theorem pipeline_preserves_catalog
    (loc : String → String → ℤ) (s : ViewState) :
    ((applyFiltersAndRender loc s).1).books = s.books := by
  unfold applyFiltersAndRender
  cases computeFiltered loc s with
  | some l => rfl
  | none => rfl

/-! ## Claim C10 -/

/-- C10 (threshold zero cannot be persisted): the configuration save
handler stores `parseFloat(input) || 0.4`, so an input parsing to `0` is
stored as `0.4`, and no input whatsoever can persist the threshold `0`. -/
theorem threshold_zero_unsavable :
    (∀ input, jsParseFloat input = .fin 0 → saveSearchThreshold input = .fin (2/5))
    ∧ (∀ input, saveSearchThreshold input ≠ .fin 0) := by
  constructor
  · intro input h
    simp [saveSearchThreshold, h]
  · intro input
    unfold saveSearchThreshold
    cases jsParseFloat input with
    | fin q =>
        by_cases hq : q = 0
        · subst hq
          simp only [if_pos rfl]
          intro hc
          have := JsNum.fin.inj hc
          norm_num at this
        · simp only [if_neg hq]
          intro hc
          exact absurd (JsNum.fin.inj hc) hq
    | nan =>
        intro hc
        have := JsNum.fin.inj hc
        norm_num at this
    | inf => intro hc; cases hc
    | ninf => intro hc; cases hc

theorem threshold_zero_unsavable_witness :
    jsParseFloat "0" = .fin 0 ∧ saveSearchThreshold "0" = .fin (2/5) :=
  ⟨rfl, threshold_zero_unsavable.1 "0" rfl⟩


theorem catalog_replacement_witness :
    scanBooks (fun _ => "f0") 5 ⟨.arr [.obj [("id", .str "old")]], none⟩
        (.status true (some (.arr
          [ .obj [("path", .str "a/b.pdf")],
            .obj [("id", .str "k2"), ("title", .str "T2"), ("path", .str "c.pdf"),
                  ("sizeBytes", .num (.fin 3))] ])))
      = ({ books := .arr
            [ mkBook "f0" "" "" "" [] "" "a/b.pdf" "b.pdf" .nan 5 "manifest",
              mkBook "k2" "T2" "" "" [] "" "c.pdf" "c.pdf" (.fin 3) 5 "manifest" ],
           stored := some (.arr
            [ mkBook "f0" "" "" "" [] "" "a/b.pdf" "b.pdf" .nan 5 "manifest",
              mkBook "k2" "T2" "" "" [] "" "c.pdf" "c.pdf" (.fin 3) 5 "manifest" ]) }, false)
    ∧ importBooksJson (fun _ => "f0") 5 ⟨.arr [.obj [("id", .str "old")]], none⟩
        (some (.arr
          [ .obj [("path", .str "a/b.pdf")],
            .obj [("id", .str "k2"), ("title", .str "T2"), ("path", .str "c.pdf"),
                  ("sizeBytes", .num (.fin 3))] ]))
      = ({ books := .arr
            [ mkBook "f0" "" "" "" [] "" "a/b.pdf" "b.pdf" .nan 5 "import",
              mkBook "k2" "T2" "" "" [] "" "c.pdf" "c.pdf" (.fin 3) 5 "import" ],
           stored := some (.arr
            [ mkBook "f0" "" "" "" [] "" "a/b.pdf" "b.pdf" .nan 5 "import",
              mkBook "k2" "T2" "" "" [] "" "c.pdf" "c.pdf" (.fin 3) 5 "import" ]) }, true)
    ∧ importBooksJson (fun _ => "f0") 5 ⟨.arr [.obj [("id", .str "old")]], none⟩
        (some (.arr []))
      = ({ books := .arr [], stored := some (.arr []) }, true) :=
  ⟨(catalog_replacement ⟨.arr [.obj [("id", .str "old")]], none⟩ (fun _ => "f0") 5
      [ .obj [("path", .str "a/b.pdf")],
        .obj [("id", .str "k2"), ("title", .str "T2"), ("path", .str "c.pdf"),
              ("sizeBytes", .num (.fin 3))] ]
      [ mkBook "f0" "" "" "" [] "" "a/b.pdf" "b.pdf" .nan 5 "manifest",
        mkBook "k2" "T2" "" "" [] "" "c.pdf" "c.pdf" (.fin 3) 5 "manifest" ]
      [ mkBook "f0" "" "" "" [] "" "a/b.pdf" "b.pdf" .nan 5 "import",
        mkBook "k2" "T2" "" "" [] "" "c.pdf" "c.pdf" (.fin 3) 5 "import" ]
      rfl rfl).1 (List.cons_ne_nil _ _),
   (catalog_replacement ⟨.arr [.obj [("id", .str "old")]], none⟩ (fun _ => "f0") 5
      [ .obj [("path", .str "a/b.pdf")],
        .obj [("id", .str "k2"), ("title", .str "T2"), ("path", .str "c.pdf"),
              ("sizeBytes", .num (.fin 3))] ]
      [ mkBook "f0" "" "" "" [] "" "a/b.pdf" "b.pdf" .nan 5 "manifest",
        mkBook "k2" "T2" "" "" [] "" "c.pdf" "c.pdf" (.fin 3) 5 "manifest" ]
      [ mkBook "f0" "" "" "" [] "" "a/b.pdf" "b.pdf" .nan 5 "import",
        mkBook "k2" "T2" "" "" [] "" "c.pdf" "c.pdf" (.fin 3) 5 "import" ]
      rfl rfl).2,
   (catalog_replacement ⟨.arr [.obj [("id", .str "old")]], none⟩ (fun _ => "f0") 5
      [] [] [] rfl rfl).2⟩

/-! ## Claim C7 -/

/-- C7 (viewer eligibility boundary): for every document and numeric
threshold, `openPdf` opens inline exactly per `inlineEligibleSpec`; in
particular a 10-MB document opens inline at threshold 10 and one byte
more opens externally. -/
theorem viewer_eligibility_boundary :
    (∀ (book : JsVal) (m : ℚ),
        openPdf book (.num (.fin m))
          = (if inlineEligibleSpec (getF book "sizeBytes") m then .inline else .external))
    ∧ openPdf (mkBook "i" "T" "A" "F" [] "D" "p" "p" (.fin (10 * 1048576)) 1 "manifest")
        (.num (.fin 10)) = .inline
    ∧ openPdf (mkBook "i" "T" "A" "F" [] "D" "p" "p" (.fin (10 * 1048576 + 1)) 1 "manifest")
        (.num (.fin 10)) = .external := by
  have hgen : ∀ (book : JsVal) (m : ℚ),
      openPdf book (.num (.fin m))
        = (if inlineEligibleSpec (getF book "sizeBytes") m then .inline else .external) := by
    intro book m
    unfold openPdf inlineEligibleSpec
    cases hs : getF book "sizeBytes" with
    | num n =>
        cases n with
        | fin q =>
            have h20 : (1024 * 1024 : ℚ) = 1048576 := by norm_num
            simp [jsIsFiniteVal, JsNum.isFinite, jsNumLe, jsToNum, h20]
        | nan => simp [jsIsFiniteVal, JsNum.isFinite]
        | inf => simp [jsIsFiniteVal, JsNum.isFinite]
        | ninf => simp [jsIsFiniteVal, JsNum.isFinite]
    | undef => simp [jsIsFiniteVal, JsNum.isFinite]
    | jnull => simp [jsIsFiniteVal, JsNum.isFinite]
    | bool b => simp [jsIsFiniteVal, JsNum.isFinite]
    | str s => simp [jsIsFiniteVal, JsNum.isFinite]
    | arr xs => simp [jsIsFiniteVal, JsNum.isFinite]
    | obj fs => simp [jsIsFiniteVal, JsNum.isFinite]
  refine ⟨hgen, ?_, ?_⟩
  · rw [hgen]
    have hs : getF (mkBook "i" "T" "A" "F" [] "D" "p" "p" (.fin (10 * 1048576)) 1 "manifest")
        "sizeBytes" = .num (.fin (10 * 1048576)) := rfl
    rw [hs]
    unfold inlineEligibleSpec
    rw [if_pos (by norm_num)]
  · rw [hgen]
    have hs : getF (mkBook "i" "T" "A" "F" [] "D" "p" "p" (.fin (10 * 1048576 + 1)) 1 "manifest")
        "sizeBytes" = .num (.fin (10 * 1048576 + 1)) := rfl
    rw [hs]
    unfold inlineEligibleSpec
    rw [if_neg (by norm_num)]

/-! ## Claim C6 -/

/-- C6 (counterexample): saving a `maxViewerSizeMB` input of `0` persists
`10`, not `1` — the `|| 10` default swallows the falsy parse result `0`
before the clamp can raise it to `1`. -/
theorem config_clamping_counterexample :
    saveMaxViewerSizeMB "0" = 10 ∧ saveMaxViewerSizeMB "0" ≠ 1 := by
  have h : jsParseInt "0" = some 0 := rfl
  constructor
  · simp [saveMaxViewerSizeMB, h]
    norm_num
  · simp [saveMaxViewerSizeMB, h]
    norm_num

/-- C6 (amended): on configuration save the `maxViewerSizeMB` input is
parsed as an integer; an unparsable input **or an input parsing to 0**
persists the default `10`; any other parse is clamped to `[1, 50]` — so
`0` persists as `10` (not `1`) and `9999` persists as `50`. -/
theorem config_clamping_amended :
    saveMaxViewerSizeMB "0" = 10
    ∧ saveMaxViewerSizeMB "9999" = 50
    ∧ (∀ input, jsParseInt input = none → saveMaxViewerSizeMB input = 10)
    ∧ (∀ input, jsParseInt input = some 0 → saveMaxViewerSizeMB input = 10)
    ∧ (∀ input q, jsParseInt input = some q → q ≠ 0 →
        saveMaxViewerSizeMB input = max 1 (min 50 q)) := by
  refine ⟨?_, ?_, ?_, ?_, ?_⟩
  · have h : jsParseInt "0" = some 0 := rfl
    simp [saveMaxViewerSizeMB, h]
    norm_num
  · have h : jsParseInt "9999" = some 9999 := rfl
    simp [saveMaxViewerSizeMB, h]
    norm_num
  · intro input h
    simp [saveMaxViewerSizeMB, h]
    norm_num
  · intro input h
    simp [saveMaxViewerSizeMB, h]
    norm_num
  · intro input q h hq
    simp [saveMaxViewerSizeMB, h, hq]

theorem config_clamping_amended_witness :
    jsParseInt "abc" = none ∧ saveMaxViewerSizeMB "abc" = 10
    ∧ jsParseInt "7" = some 7 ∧ saveMaxViewerSizeMB "7" = max 1 (min 50 7) :=
  ⟨rfl, config_clamping_amended.2.2.1 "abc" rfl, rfl,
    config_clamping_amended.2.2.2.2 "7" 7 rfl (by norm_num)⟩

/-! ## Claim C4 -/

/-- C4 (counterexample): a parseable but non-array value stored under the
catalog key crashes the boot sequence — `loadBooks` assigns the JSON
number `5` unvalidated and `rebuildFacets` throws
(`state.books.map` is not a function). -/
theorem corrupt_boot_counterexample :
    boot locDefault fuseDefault none (some (some (.num (.fin 5)))) = none := rfl

/-- C4 (amended): when the persisted catalog entry is absent or
unparseable, the boot sequence completes without error and the catalog
falls back silently to empty; a parseable entry is assigned unvalidated
and can crash the boot pipeline (see the counterexample). -/
theorem corrupt_boot_amended
    (loc : String → String → ℤ) (mkFuse : JsVal → String → List JsVal)
    (storedConfig storedBooks : Option (Option JsVal))
    (h : storedBooks = none ∨ storedBooks = some none) :
    boot loc mkFuse storedConfig storedBooks
      = some { config := loadConfig storedConfig, books := .arr [],
               fields := [], tags := [], filteredBooks := [] } := by
  have hfuse : ∀ (cfg : Config), initFuse mkFuse cfg (.arr []) = some none := by
    intro cfg
    unfold initFuse
    cases htf : truthy cfg.fuzzySearch with
    | false => simp
    | true => simp [getFieldE, jsStrictEq]
  have hbooks : loadBooks storedBooks = .arr [] := by
    rcases h with h | h <;> subst h <;> rfl
  unfold boot
  rw [hbooks]
  have hRF : rebuildFacets (JsVal.arr []) = some ([], []) := rfl
  have hCF : computeFiltered loc
      { books := JsVal.arr [], filteredBooks := [], query := "", fieldVal := "",
        activeTags := [], sortKey := "title", fuse := none } = some [] := rfl
  simp only [hfuse, hRF, hCF, Option.some_bind]
  rfl

theorem corrupt_boot_amended_witness :
    boot locDefault fuseDefault none none
      = some { config := loadConfig none, books := .arr [],
               fields := [], tags := [], filteredBooks := [] } :=
  corrupt_boot_amended locDefault fuseDefault none none (Or.inl rfl)


/-! ## Claim C2 -/

/-- C2 (export/import round-trip): exporting any well-formed catalog and
re-importing the exported manifest yields an equivalent catalog, in
memory and persisted: every document keeps `id`, `title`, `author`,
`field`, `tags`, `description`, `path`, `addedAt` and `metadataSource`
(`importRenorm` touches only `sizeBytes`), `filename` is re-derived
identically from `path`, a finite `sizeBytes` round-trips unchanged, and
a non-finite `sizeBytes` — omitted on export — comes back as the
non-finite `NaN` sentinel. -/
theorem export_import_round_trip
    (cat : List JsVal) (ids : ℕ → String) (now : ℚ) (s : AppState)
    (hwf : ∀ b ∈ cat, WfBook b) :
    ∃ manifest,
      exportBooksJson cat = some manifest
      ∧ importBooksJson ids now s (some (.arr manifest))
          = ({ books := .arr (cat.map importRenorm),
               stored := some (.arr (cat.map importRenorm)) }, true)
      ∧ (∀ b k, k ≠ "sizeBytes" → getF (importRenorm b) k = getF b k)
      ∧ (∀ b ∈ cat, jsIsFiniteVal (getF b "sizeBytes") = true → importRenorm b = b)
      ∧ (∀ b ∈ cat, jsIsFiniteVal (getF b "sizeBytes") = false →
          getF (importRenorm b) "sizeBytes" = .num .nan) := by
  obtain ⟨man, hexp, hnorm⟩ := roundTrip_list ids now cat hwf 0
  have hnl : normalizeList "import" ids now man = some (cat.map importRenorm) := by
    unfold normalizeList
    rw [enum_eq_enumFrom]
    exact hnorm
  refine ⟨man, hexp, ?_, fun b k hk => getF_importRenorm b k hk, ?_, ?_⟩
  · simp [importBooksJson, hnl, saveBooks]
  · intro b hb hfin
    obtain ⟨id, title, author, fieldv, tags, descr, path, sz, addedAt, msrc,
      hbEq, -, -, -⟩ := hwf b hb
    subst hbEq
    have hred : jsIsFiniteVal (getF (mkBook id title author fieldv tags descr path
        (lastSegment path) sz addedAt msrc) "sizeBytes") = JsNum.isFinite sz := rfl
    rw [hred] at hfin
    rw [importRenorm_mkBook]
    cases sz with
    | fin q => rfl
    | nan => cases hfin
    | inf => cases hfin
    | ninf => cases hfin
  · intro b hb hfin
    obtain ⟨id, title, author, fieldv, tags, descr, path, sz, addedAt, msrc,
      hbEq, -, -, -⟩ := hwf b hb
    subst hbEq
    have hred : jsIsFiniteVal (getF (mkBook id title author fieldv tags descr path
        (lastSegment path) sz addedAt msrc) "sizeBytes") = JsNum.isFinite sz := rfl
    rw [hred] at hfin
    rw [importRenorm_mkBook]
    cases sz with
    | fin q => cases hfin
    | nan => rfl
    | inf => rfl
    | ninf => rfl

theorem export_import_round_trip_witness :
    ∃ manifest,
      exportBooksJson
          [ mkBook "i1" "T" "A" "F" ["x"] "D" "p/q.pdf" "q.pdf" (.fin 7) 9 "manifest",
            mkBook "i2" "U" "B" "G" [] "E" "r.pdf" "r.pdf" .nan 4 "manifest+manual" ]
        = some manifest
      ∧ importBooksJson (fun _ => "f") 3 ⟨.arr [], none⟩ (some (.arr manifest))
          = ({ books := .arr
                ([ mkBook "i1" "T" "A" "F" ["x"] "D" "p/q.pdf" "q.pdf" (.fin 7) 9 "manifest",
                   mkBook "i2" "U" "B" "G" [] "E" "r.pdf" "r.pdf" .nan 4 "manifest+manual" ].map
                  importRenorm),
               stored := some (.arr
                ([ mkBook "i1" "T" "A" "F" ["x"] "D" "p/q.pdf" "q.pdf" (.fin 7) 9 "manifest",
                   mkBook "i2" "U" "B" "G" [] "E" "r.pdf" "r.pdf" .nan 4 "manifest+manual" ].map
                  importRenorm)) }, true)
      ∧ (∀ b k, k ≠ "sizeBytes" → getF (importRenorm b) k = getF b k)
      ∧ (∀ b ∈ [ mkBook "i1" "T" "A" "F" ["x"] "D" "p/q.pdf" "q.pdf" (.fin 7) 9 "manifest",
                 mkBook "i2" "U" "B" "G" [] "E" "r.pdf" "r.pdf" .nan 4 "manifest+manual" ],
          jsIsFiniteVal (getF b "sizeBytes") = true → importRenorm b = b)
      ∧ (∀ b ∈ [ mkBook "i1" "T" "A" "F" ["x"] "D" "p/q.pdf" "q.pdf" (.fin 7) 9 "manifest",
                 mkBook "i2" "U" "B" "G" [] "E" "r.pdf" "r.pdf" .nan 4 "manifest+manual" ],
          jsIsFiniteVal (getF b "sizeBytes") = false →
            getF (importRenorm b) "sizeBytes" = .num .nan) :=
  export_import_round_trip
    [ mkBook "i1" "T" "A" "F" ["x"] "D" "p/q.pdf" "q.pdf" (.fin 7) 9 "manifest",
      mkBook "i2" "U" "B" "G" [] "E" "r.pdf" "r.pdf" .nan 4 "manifest+manual" ]
    (fun _ => "f") 3 ⟨.arr [], none⟩
    (by
      intro b hb
      simp only [List.mem_cons, List.not_mem_nil, or_false] at hb
      rcases hb with rfl | rfl
      · exact ⟨"i1", "T", "A", "F", ["x"], "D", "p/q.pdf", .fin 7, 9, "manifest",
          rfl, by decide, by decide, by decide⟩
      · exact ⟨"i2", "U", "B", "G", [], "E", "r.pdf", .nan, 4, "manifest+manual",
          rfl, by decide, by decide, by decide⟩)


/-! ## Claim C8 -/

theorem jsToStr_str (s : String) : jsToStr (.str s) = s := by
  simp [jsToStr]

theorem strAppend_assoc (a b c : String) : (a ++ b) ++ c = a ++ (b ++ c) := by
  cases a with
  | mk as =>
      cases b with
      | mk bs =>
          cases c with
          | mk cs => exact congrArg String.mk (List.append_assoc as bs cs)

/-- C8 (metadata-source suffixing): every save through the Metadata
Editor replaces the located record with `editUpdatedBook`, whose
`metadataSource` is the old value (base defaulting to `"manifest"` when
falsy) with the literal `"+manual"` appended; saving the same document
twice in succession therefore yields a value ending in `"+manual"` after
the first save and in `"+manual+manual"` after the second. -/
theorem metadata_source_suffixing
    (s : AppState) (bs : List JsVal) (i : ℕ) (b : JsVal) (eid : JsVal)
    (f1 f2 : EditForm) (ms : String)
    (hbooks : s.books = .arr bs)
    (hidx : findIndexE (fun b => do
        let iv ← getFieldE b "id"
        pure (jsStrictEq iv eid)) bs = some (some i))
    (hb : bs.getD i .undef = b)
    (fsb : List (String × JsVal)) (hobj : b = .obj fsb)
    (hms : getF b "metadataSource" = .str ms) (hmsne : ms ≠ "") :
    (∀ (form : EditForm) (old : JsVal),
        getF (editUpdatedBook form old) "metadataSource"
          = .str (jsToStr (orJs (getF old "metadataSource") (.str "manifest")) ++ "+manual"))
    ∧ editFormSubmit s eid f1
        = some ⟨.arr (bs.set i (editUpdatedBook f1 b)),
                some (.arr (bs.set i (editUpdatedBook f1 b)))⟩
    ∧ getF (editUpdatedBook f1 b) "metadataSource" = .str (ms ++ "+manual")
    ∧ strEndsWith (ms ++ "+manual") "+manual" = true
    ∧ editFormSubmit ⟨.arr (bs.set i (editUpdatedBook f1 b)),
                      some (.arr (bs.set i (editUpdatedBook f1 b)))⟩ eid f2
        = some ⟨.arr ((bs.set i (editUpdatedBook f1 b)).set i
                  (editUpdatedBook f2 (editUpdatedBook f1 b))),
                some (.arr ((bs.set i (editUpdatedBook f1 b)).set i
                  (editUpdatedBook f2 (editUpdatedBook f1 b))))⟩
    ∧ getF (editUpdatedBook f2 (editUpdatedBook f1 b)) "metadataSource"
        = .str (ms ++ "+manual" ++ "+manual")
    ∧ strEndsWith (ms ++ "+manual" ++ "+manual") "+manual+manual" = true := by
  subst hobj
  -- the predicate holds at the located record
  obtain ⟨hlen, hpb⟩ := findIndexE_found (fun b => do
      let iv ← getFieldE b "id"
      pure (jsStrictEq iv eid)) .undef bs i hidx
  rw [hb] at hpb
  have heq : jsStrictEq (getF (JsVal.obj fsb) "id") eid = true := by
    simpa [getFieldE, Option.some_bind] using hpb
  -- the predicate holds at the updated record, which is an object
  have hu1obj : getFieldE (editUpdatedBook f1 (JsVal.obj fsb)) "id"
      = some (getF (editUpdatedBook f1 (JsVal.obj fsb)) "id") := rfl
  have hpu1 : (fun b => do
      let iv ← getFieldE b "id"
      pure (jsStrictEq iv eid) : JsVal → Option Bool) (editUpdatedBook f1 (JsVal.obj fsb))
        = some true := by
    show (getFieldE (editUpdatedBook f1 (JsVal.obj fsb)) "id").bind
        (fun iv => some (jsStrictEq iv eid)) = some true
    rw [hu1obj, Option.some_bind, getF_editUpdatedBook_id, heq]
  -- metadata strings
  have hms1 : getF (editUpdatedBook f1 (JsVal.obj fsb)) "metadataSource" = .str (ms ++ "+manual") := by
    rw [getF_editUpdatedBook_ms, hms, orJs_str_of_ne _ _ hmsne, jsToStr_str]
  have hms2 : getF (editUpdatedBook f2 (editUpdatedBook f1 (JsVal.obj fsb))) "metadataSource"
      = .str (ms ++ "+manual" ++ "+manual") := by
    rw [getF_editUpdatedBook_ms, hms1,
        orJs_str_of_ne _ _ (str_append_ne_empty ms "+manual" (by decide)), jsToStr_str]
  -- first submit
  have e1 : editFormSubmit s eid f1
      = some ⟨.arr (bs.set i (editUpdatedBook f1 (JsVal.obj fsb))),
              some (.arr (bs.set i (editUpdatedBook f1 (JsVal.obj fsb))))⟩ := by
    simp only [editFormSubmit, hbooks]
    show Option.bind (findIndexE (fun b => do
        let iv ← getFieldE b "id"
        pure (jsStrictEq iv eid)) bs) _ = _
    rw [hidx]
    show some _ = _
    rw [hb]
    rfl
  -- second submit
  have hidx2 : findIndexE (fun b => do
      let iv ← getFieldE b "id"
      pure (jsStrictEq iv eid)) (bs.set i (editUpdatedBook f1 (JsVal.obj fsb)))
        = some (some i) :=
    findIndexE_set _ _ bs i hidx hpu1
  have hgd : (bs.set i (editUpdatedBook f1 (JsVal.obj fsb))).getD i .undef
      = editUpdatedBook f1 (JsVal.obj fsb) :=
    getD_set_self _ _ bs i hlen
  have e2 : editFormSubmit ⟨.arr (bs.set i (editUpdatedBook f1 (JsVal.obj fsb))),
      some (.arr (bs.set i (editUpdatedBook f1 (JsVal.obj fsb))))⟩ eid f2
      = some ⟨.arr ((bs.set i (editUpdatedBook f1 (JsVal.obj fsb))).set i
                (editUpdatedBook f2 (editUpdatedBook f1 (JsVal.obj fsb)))),
              some (.arr ((bs.set i (editUpdatedBook f1 (JsVal.obj fsb))).set i
                (editUpdatedBook f2 (editUpdatedBook f1 (JsVal.obj fsb)))))⟩ := by
    simp only [editFormSubmit]
    show Option.bind (findIndexE (fun b => do
        let iv ← getFieldE b "id"
        pure (jsStrictEq iv eid)) (bs.set i (editUpdatedBook f1 (JsVal.obj fsb)))) _ = _
    rw [hidx2]
    show some _ = _
    rw [hgd]
    rfl
  have hend1 : strEndsWith (ms ++ "+manual") "+manual" = true := strEndsWith_append _ _
  have hend2 : strEndsWith (ms ++ "+manual" ++ "+manual") "+manual+manual" = true := by
    rw [strAppend_assoc]
    have : ("+manual" ++ "+manual" : String) = "+manual+manual" := rfl
    rw [this]
    exact strEndsWith_append _ _
  exact ⟨getF_editUpdatedBook_ms, e1, hms1, hend1, e2, hms2, hend2⟩

theorem metadata_source_suffixing_witness :
    (∀ (form : EditForm) (old : JsVal),
        getF (editUpdatedBook form old) "metadataSource"
          = .str (jsToStr (orJs (getF old "metadataSource") (.str "manifest")) ++ "+manual"))
    ∧ editFormSubmit ⟨.arr [mkBook "i1" "T" "A" "F" [] "D" "p" "p" (.fin 1) 1 "manifest"], none⟩
        (.str "i1") ⟨"t", "a", "f", "x, y", "d"⟩
        = some ⟨.arr [editUpdatedBook ⟨"t", "a", "f", "x, y", "d"⟩
                  (mkBook "i1" "T" "A" "F" [] "D" "p" "p" (.fin 1) 1 "manifest")],
                some (.arr [editUpdatedBook ⟨"t", "a", "f", "x, y", "d"⟩
                  (mkBook "i1" "T" "A" "F" [] "D" "p" "p" (.fin 1) 1 "manifest")])⟩
    ∧ getF (editUpdatedBook ⟨"t", "a", "f", "x, y", "d"⟩
          (mkBook "i1" "T" "A" "F" [] "D" "p" "p" (.fin 1) 1 "manifest")) "metadataSource"
        = .str ("manifest" ++ "+manual")
    ∧ strEndsWith ("manifest" ++ "+manual") "+manual" = true
    ∧ editFormSubmit ⟨.arr [editUpdatedBook ⟨"t", "a", "f", "x, y", "d"⟩
            (mkBook "i1" "T" "A" "F" [] "D" "p" "p" (.fin 1) 1 "manifest")],
          some (.arr [editUpdatedBook ⟨"t", "a", "f", "x, y", "d"⟩
            (mkBook "i1" "T" "A" "F" [] "D" "p" "p" (.fin 1) 1 "manifest")])⟩
        (.str "i1") ⟨"t2", "a2", "f2", "", "d2"⟩
        = some ⟨.arr [editUpdatedBook ⟨"t2", "a2", "f2", "", "d2"⟩
                  (editUpdatedBook ⟨"t", "a", "f", "x, y", "d"⟩
                    (mkBook "i1" "T" "A" "F" [] "D" "p" "p" (.fin 1) 1 "manifest"))],
                some (.arr [editUpdatedBook ⟨"t2", "a2", "f2", "", "d2"⟩
                  (editUpdatedBook ⟨"t", "a", "f", "x, y", "d"⟩
                    (mkBook "i1" "T" "A" "F" [] "D" "p" "p" (.fin 1) 1 "manifest"))])⟩
    ∧ getF (editUpdatedBook ⟨"t2", "a2", "f2", "", "d2"⟩
          (editUpdatedBook ⟨"t", "a", "f", "x, y", "d"⟩
            (mkBook "i1" "T" "A" "F" [] "D" "p" "p" (.fin 1) 1 "manifest"))) "metadataSource"
        = .str ("manifest" ++ "+manual" ++ "+manual")
    ∧ strEndsWith ("manifest" ++ "+manual" ++ "+manual") "+manual+manual" = true :=
  metadata_source_suffixing
    ⟨.arr [mkBook "i1" "T" "A" "F" [] "D" "p" "p" (.fin 1) 1 "manifest"], none⟩
    [mkBook "i1" "T" "A" "F" [] "D" "p" "p" (.fin 1) 1 "manifest"] 0
    (mkBook "i1" "T" "A" "F" [] "D" "p" "p" (.fin 1) 1 "manifest") (.str "i1")
    ⟨"t", "a", "f", "x, y", "d"⟩ ⟨"t2", "a2", "f2", "", "d2"⟩ "manifest"
    rfl rfl rfl _ rfl rfl (by decide)

end LibraryApp
